import Mathlib

/-!
Verification of the AnyNote authentication/session core.

This file shallowly embeds the authentication, session-lifecycle and
rate-limiting code of the repository (packages/workers/src: auth/auth-service.ts,
auth/rate-limiter.ts, db/session-repository.ts, db/user-repository.ts,
utils/helpers.ts, utils/input-validator.ts, and the route handlers plus the
authentication middleware of index.ts) and proves the spec claims against it.

Modelling conventions:
- JavaScript strings are `List Char` (`Str`), compared byte/code-unit-wise.
- Millisecond timestamps (`Date.now()`) and second timestamps are `Int`.
- The D1 session table is a `List Session`; `id` is its PRIMARY KEY, so
  well-formed stores have pairwise distinct ids (`Nodup` hypotheses).
- SQL statements are translated row-operation by row-operation; one SQL
  statement is one atomic Lean function on the store.
- `crypto.getRandomValues` randomness is passed in explicitly as byte lists.
-/

namespace AnyNote

/-- A JavaScript string, as its list of UTF-16 code points / characters. -/
abbrev Str := List Char

/-! ## Session data model (migrations/0004, 0005 and types.ts)

`is_active` is stored as INTEGER 0/1 in D1; every repository read/write uses
the 0/1 convention consistently, so it is modelled as `Bool`. -/

structure Session where
  id : Str
  user_id : Str
  device_id : Str
  device_name : Option Str
  device_type : Option Str
  browser_name : Option Str
  os_name : Option Str
  ip_address : Option Str
  location : Option Str
  user_agent : Str
  is_active : Bool
  created_at : Int
  expires_at : Int
  refresh_token : Option Str
  deriving DecidableEq, Repr

/-- The sessions table. -/
abbrev SessionStore := List Session

/-- The WHERE clause `user_id = ? AND is_active = 1 AND expires_at > ?`
shared by `findActive`, `countActive` and the `revokeOldestSession` subquery. -/
def sessionLive (uid : Str) (now : Int) (s : Session) : Bool :=
  s.user_id = uid ∧ s.is_active = true ∧ now < s.expires_at

/-- The rows selected by the live-session WHERE clause, in table order. -/
def liveRows (store : SessionStore) (uid : Str) (now : Int) : List Session :=
  store.filter (sessionLive uid now)

/-- `SessionRepository.findActive`: live sessions ordered by `created_at` ASC. -/
def findActive (store : SessionStore) (uid : Str) (now : Int) : List Session :=
  (liveRows store uid now).insertionSort (fun a b => a.created_at ≤ b.created_at)

/-- `SessionRepository.countActive`. -/
def countActive (store : SessionStore) (uid : Str) (now : Int) : Nat :=
  (liveRows store uid now).length

/-- `SessionRepository.findById`: `SELECT * FROM sessions WHERE id = ?`,
first matching row. -/
def findById (store : SessionStore) (sid : Str) : Option Session :=
  store.find? (fun s => s.id = sid)

/-- `SessionRepository.findByRefreshToken`:
`SELECT * FROM sessions WHERE refresh_token = ? AND is_active = 1 AND expires_at > ?`. -/
def findByRefreshToken (store : SessionStore) (tok : Str) (now : Int) : Option Session :=
  store.find? (fun s => s.refresh_token = some tok ∧ s.is_active = true ∧ now < s.expires_at)

/-- `SessionRepository.create`: INSERT appends a row. -/
def createSession (store : SessionStore) (s : Session) : SessionStore :=
  store ++ [s]

/-- `SessionRepository.revoke`: `UPDATE sessions SET is_active = 0 WHERE id = ?`. -/
def revokeById (store : SessionStore) (sid : Str) : SessionStore :=
  store.map (fun s => if s.id = sid then { s with is_active := false } else s)

/-- The scalar subquery
`SELECT id FROM sessions WHERE ... ORDER BY created_at ASC LIMIT 1`:
the first row (in scan order) of minimal `created_at`. -/
def oldestOf (l : List Session) : Option Session :=
  l.argmin Session.created_at

/-- `SessionRepository.revokeOldestSession`: the single atomic statement
`UPDATE sessions SET is_active = 0 WHERE id = (subquery) RETURNING *`.
Returns the updated row (as RETURNING does) and the updated table. -/
def revokeOldestSession (store : SessionStore) (uid : Str) (now : Int) :
    Option Session × SessionStore :=
  match oldestOf (liveRows store uid now) with
  | none => (none, store)
  | some s => (some { s with is_active := false }, revokeById store s.id)

theorem oldestOf_eq_none {l : List Session} : oldestOf l = none ↔ l = [] :=
  List.argmin_eq_none

theorem oldestOf_mem {l : List Session} {s : Session} (h : oldestOf l = some s) : s ∈ l :=
  List.argmin_mem h

theorem oldestOf_min {l : List Session} {s : Session} (h : oldestOf l = some s) :
    ∀ t ∈ l, s.created_at ≤ t.created_at :=
  fun _ ht => List.le_of_mem_argmin ht h

/-- On a table whose ids are pairwise distinct (id is the PRIMARY KEY), the
`UPDATE ... WHERE id = ?` row map touches exactly the one row at the id's index. -/
theorem revokeById_eq_set {store : SessionStore} {i : Nat} (hi : i < store.length)
    (hnodup : (store.map Session.id).Nodup) :
    revokeById store (store.get ⟨i, hi⟩).id =
      store.set i { store.get ⟨i, hi⟩ with is_active := false } := by
  simp only [List.get_eq_getElem]
  have hinj : ∀ j (hj : j < store.length), (store[j]).id = (store[i]).id → j = i := by
    intro j hj hid
    have hmi : i < (store.map Session.id).length := by simpa using hi
    have hmj : j < (store.map Session.id).length := by simpa using hj
    have heq : (store.map Session.id)[j] = (store.map Session.id)[i] := by
      rw [List.getElem_map, List.getElem_map]; exact hid
    exact (List.Nodup.getElem_inj_iff hnodup).mp heq
  apply List.ext_getElem
  · simp [revokeById]
  · intro j hj1 hj2
    have hj : j < store.length := by simpa [revokeById] using hj1
    simp only [revokeById, List.getElem_map, List.getElem_set]
    by_cases hji : j = i
    · subst hji
      simp
    · have hne : (store[j]).id ≠ (store[i]).id := fun he => hji (hinj j hj he)
      rw [if_neg hne, if_neg (fun h => hji h.symm)]

/-- **C1.** A single `revokeOldestSession(userId)` call: if the user has no
active unexpired session it returns the null sentinel and leaves the store
untouched; otherwise it returns an active unexpired session of that user of
minimal `created_at` (deactivated, as RETURNING reports the updated row),
the store update is exactly a one-position `set` that flips that session's
`is_active` to false, and every other index of the store is unchanged. -/
theorem revokeOldestSession_spec (store : SessionStore) (uid : Str) (now : Int)
    (hnodup : (store.map Session.id).Nodup) :
    (liveRows store uid now = [] → revokeOldestSession store uid now = (none, store)) ∧
    (liveRows store uid now ≠ [] →
      ∃ (i : Nat) (hi : i < store.length),
        sessionLive uid now (store.get ⟨i, hi⟩) = true ∧
        (∀ t ∈ store, sessionLive uid now t = true →
          (store.get ⟨i, hi⟩).created_at ≤ t.created_at) ∧
        (revokeOldestSession store uid now).1 =
          some { store.get ⟨i, hi⟩ with is_active := false } ∧
        (revokeOldestSession store uid now).2 =
          store.set i { store.get ⟨i, hi⟩ with is_active := false } ∧
        (∀ j, j ≠ i → ((revokeOldestSession store uid now).2).get? j = store.get? j)) := by
  constructor
  · intro hempty
    have : oldestOf (liveRows store uid now) = none := by
      rw [oldestOf_eq_none]; exact hempty
    simp [revokeOldestSession, this]
  · intro hne
    rcases hs : oldestOf (liveRows store uid now) with _ | s
    · exact absurd (oldestOf_eq_none.mp hs) hne
    · have hmemLive : s ∈ liveRows store uid now := oldestOf_mem hs
      have hmem : s ∈ store := (List.mem_filter.mp hmemLive).1
      have hlive : sessionLive uid now s = true := (List.mem_filter.mp hmemLive).2
      rcases List.mem_iff_get.mp hmem with ⟨⟨i, hi⟩, hgi⟩
      have hset : revokeById store s.id = store.set i { s with is_active := false } := by
        have h0 := revokeById_eq_set hi hnodup
        rw [hgi] at h0
        exact h0
      refine ⟨i, hi, ?_, ?_, ?_, ?_, ?_⟩
      · rw [hgi]; exact hlive
      · intro t ht htlive
        rw [hgi]
        exact oldestOf_min hs t (List.mem_filter.mpr ⟨ht, htlive⟩)
      · rw [hgi]
        simp [revokeOldestSession, hs]
      · rw [hgi]
        simp [revokeOldestSession, hs, hset]
      · intro j hji
        have h2 : (revokeOldestSession store uid now).2 =
            store.set i { s with is_active := false } := by
          simp [revokeOldestSession, hs, hset]
        rw [h2]
        simp only [List.get?_eq_getElem?]
        exact List.getElem?_set_ne (fun h => hji h.symm)

/-- A demo session row for concrete evaluations. -/
def demoSession (sid uid : Str) (created expires : Int) (active : Bool) : Session :=
  { id := sid, user_id := uid, device_id := ['d'], device_name := none, device_type := none,
    browser_name := none, os_name := none, ip_address := none, location := none,
    user_agent := [], is_active := active, created_at := created, expires_at := expires,
    refresh_token := none }

/-- A demo store: three sessions of user `u` (one revoked), one of user `v`. -/
def demoStore1 : SessionStore :=
  [demoSession ['a'] ['u'] 10 1000 true,
   demoSession ['b'] ['u'] 5 1000 true,
   demoSession ['c'] ['u'] 1 1000 false,
   demoSession ['e'] ['v'] 1 1000 true]

theorem revokeOldestSession_spec_witness :
    liveRows demoStore1 ['u'] 100 ≠ [] ∧
    (∃ (i : Nat) (hi : i < demoStore1.length),
      sessionLive ['u'] 100 (demoStore1.get ⟨i, hi⟩) = true ∧
      (∀ t ∈ demoStore1, sessionLive ['u'] 100 t = true →
        (demoStore1.get ⟨i, hi⟩).created_at ≤ t.created_at) ∧
      (revokeOldestSession demoStore1 ['u'] 100).1 =
        some { demoStore1.get ⟨i, hi⟩ with is_active := false } ∧
      (revokeOldestSession demoStore1 ['u'] 100).2 =
        demoStore1.set i { demoStore1.get ⟨i, hi⟩ with is_active := false } ∧
      (∀ j, j ≠ i → ((revokeOldestSession demoStore1 ['u'] 100).2).get? j =
        demoStore1.get? j)) :=
  ⟨by decide, (revokeOldestSession_spec demoStore1 ['u'] 100 (by decide)).2 (by decide)⟩

/-! ## utils/helpers.ts: constantTimeCompare

`constantTimeCompare(a, b)` returns false on a length mismatch, otherwise
ORs together the XORs of all code units and compares the accumulator to 0. -/

/-- `constantTimeCompare` from utils/helpers.ts. -/
def ctCompare (a b : Str) : Bool :=
  if a.length ≠ b.length then false
  else ((a.zip b).foldl (fun acc p => acc ||| (p.1.toNat ^^^ p.2.toNat)) 0) = 0

theorem charToNat_inj {x y : Char} (h : x.toNat = y.toNat) : x = y := by
  simpa [Char.ext_iff, UInt32.ext_iff, BitVec.toNat_eq] using h

theorem natOr_eq_zero {x y : Nat} : x ||| y = 0 ↔ x = 0 ∧ y = 0 := by
  constructor
  · intro h
    constructor <;> (apply Nat.eq_of_testBit_eq; intro i)
    · have := congrArg (fun n => Nat.testBit n i) h
      simp [Nat.testBit_or] at this
      simp [this.1]
    · have := congrArg (fun n => Nat.testBit n i) h
      simp [Nat.testBit_or] at this
      simp [this.2]
  · rintro ⟨rfl, rfl⟩; rfl

theorem foldl_or_eq_zero {l : List Nat} {acc : Nat} :
    l.foldl (fun x y => x ||| y) acc = 0 ↔ acc = 0 ∧ ∀ x ∈ l, x = 0 := by
  induction l generalizing acc with
  | nil => simp
  | cons a t ih =>
    simp only [List.foldl_cons, ih, List.mem_cons]
    constructor
    · rintro ⟨h0, hall⟩
      rcases natOr_eq_zero.mp h0 with ⟨ha, hb⟩
      exact ⟨ha, fun x hx => hx.elim (fun he => he ▸ hb) (hall x)⟩
    · rintro ⟨ha, hall⟩
      exact ⟨natOr_eq_zero.mpr ⟨ha, hall a (Or.inl rfl)⟩,
        fun x hx => hall x (Or.inr hx)⟩

theorem mem_zip_self {l : Str} {p : Char × Char} (h : p ∈ l.zip l) : p.1 = p.2 := by
  induction l with
  | nil => simp at h
  | cons x xs ih =>
    rw [List.zip_cons_cons] at h
    rcases List.mem_cons.mp h with rfl | h
    · rfl
    · exact ih h

theorem all_zip_xor_zero : ∀ a b : Str, a.length = b.length →
    ((∀ p ∈ a.zip b, p.1.toNat ^^^ p.2.toNat = 0) ↔ a = b) := by
  intro a
  induction a with
  | nil =>
    intro b h
    cases b with
    | nil => simp
    | cons y ys => simp at h
  | cons x xs ih =>
    intro b h
    cases b with
    | nil => simp at h
    | cons y ys =>
      simp only [List.zip_cons_cons, List.mem_cons]
      constructor
      · intro hall
        have hxy : x = y :=
          charToNat_inj (Nat.xor_eq_zero.mp (hall (x, y) (Or.inl rfl)))
        have hxs : xs = ys := (ih ys (by simpa using h)).mp
          (fun p hp => hall p (Or.inr hp))
        rw [hxy, hxs]
      · intro he p hp
        injection he with h1 h2
        subst h1; subst h2
        rcases hp with rfl | hp
        · simp
        · rw [mem_zip_self hp]; simp

/-- `constantTimeCompare` decides string equality: equal-length strings with a
differing code unit at any position produce a nonzero OR accumulator. -/
theorem ctCompare_iff_eq (a b : Str) : ctCompare a b = true ↔ a = b := by
  unfold ctCompare
  split
  · next hlen =>
    simp only [Bool.false_eq_true, false_iff]
    intro h
    exact hlen (h ▸ rfl)
  · next hlen =>
    push_neg at hlen
    have hf : (fun (acc : Nat) (p : Char × Char) => acc ||| (p.1.toNat ^^^ p.2.toNat)) =
        (fun acc p => (fun x y => x ||| y) acc ((fun q : Char × Char =>
          q.1.toNat ^^^ q.2.toNat) p)) := rfl
    rw [decide_eq_true_eq, hf, ← List.foldl_map, foldl_or_eq_zero]
    simp only [List.mem_map, true_and]
    constructor
    · intro hz
      exact (all_zip_xor_zero a b hlen).mp (fun p hp => hz _ ⟨p, hp, rfl⟩)
    · rintro rfl x ⟨p, hp, rfl⟩
      exact (all_zip_xor_zero a a rfl).mpr rfl p hp

/-! ## Model of payload serialization (JSON.stringify / JSON.parse)

The JWT functions in utils/helpers.ts use `JSON.stringify`/`JSON.parse` on
the payload object only as an injective serializer with a matching partial
inverse. They are modelled by a concrete executable codec with exactly those
properties: numbers as binary-digit runs, strings length-prefixed, optional
fields tagged. The token-level framing (the `.` separators, the signature
comparison, the expiry check) is translated from the source verbatim. -/

/-- Little-endian binary digits, with explicit fuel (first argument) so the
recursion is structural and kernel-evaluable. -/
def natBitsF : Nat → Nat → Str
  | _, 0 => []
  | 0, _ + 1 => []
  | f + 1, n + 1 => (if (n + 1) % 2 = 1 then '1' else '0') :: natBitsF f ((n + 1) / 2)

/-- Little-endian binary digits of a natural number (no digits for 0). -/
def natBits (n : Nat) : Str := natBitsF n n

theorem natBitsF_congr : ∀ n f g, n ≤ f → n ≤ g → natBitsF f n = natBitsF g n := by
  intro n
  induction n using Nat.strong_induction_on with
  | _ n ih =>
    match n with
    | 0 => intro f g _ _; cases f <;> cases g <;> rfl
    | m + 1 =>
      intro f g hf hg
      match f, g with
      | f + 1, g + 1 =>
        rw [natBitsF, natBitsF]
        congr 1
        exact ih ((m + 1) / 2) (Nat.div_lt_self (Nat.succ_pos m) (by omega)) f g
          (by omega) (by omega)

theorem natBits_succ (n : Nat) :
    natBits (n + 1) = (if (n + 1) % 2 = 1 then '1' else '0') :: natBits ((n + 1) / 2) := by
  rw [natBits, natBitsF]
  congr 1
  exact natBitsF_congr ((n + 1) / 2) n ((n + 1) / 2) (by omega) (le_refl _)

/-- Value of a little-endian binary digit string. -/
def bitsToNat : Str → Nat
  | [] => 0
  | c :: r => (if c = '1' then 1 else 0) + 2 * bitsToNat r

def is01 (c : Char) : Bool := c = '0' ∨ c = '1'

theorem natBits_all01 : ∀ n, ∀ c ∈ natBits n, is01 c = true := by
  intro n
  induction n using Nat.strong_induction_on with
  | _ n ih =>
    match n with
    | 0 => intro c hc; simp [natBits, natBitsF] at hc
    | m + 1 =>
      intro c hc
      rw [natBits_succ] at hc
      rcases List.mem_cons.mp hc with rfl | hc
      · split <;> simp [is01]
      · exact ih ((m + 1) / 2) (Nat.div_lt_self (Nat.succ_pos m) (by omega)) c hc

theorem bitsToNat_natBits : ∀ n, bitsToNat (natBits n) = n := by
  intro n
  induction n using Nat.strong_induction_on with
  | _ n ih =>
    match n with
    | 0 => simp [natBits, natBitsF, bitsToNat]
    | m + 1 =>
      rw [natBits_succ, bitsToNat,
        ih ((m + 1) / 2) (Nat.div_lt_self (Nat.succ_pos m) (by omega))]
      rcases Nat.mod_two_eq_zero_or_one (m + 1) with h | h <;> simp [h] <;> omega

/-- A natural number on the wire: binary digits then a terminator. -/
def encNat (n : Nat) : Str := natBits n ++ [';']

/-- Reads binary digits up to the terminator. -/
def parseNatStr (l : Str) : Option (Nat × Str) :=
  match l.dropWhile is01 with
  | ';' :: r => some (bitsToNat (l.takeWhile is01), r)
  | _ => none

theorem takeWhile_all_append {p : Char → Bool} :
    ∀ (h : Str), (∀ c ∈ h, p c = true) → ∀ (x : Char) (r : Str), p x = false →
      (h ++ x :: r).takeWhile p = h ∧ (h ++ x :: r).dropWhile p = x :: r := by
  intro h hall x r hx
  induction h with
  | nil => simp [List.takeWhile, List.dropWhile, hx]
  | cons a t ih =>
    have ha : p a = true := hall a (List.mem_cons_self a t)
    have ht := ih (fun c hc => hall c (List.mem_cons_of_mem a hc))
    simp only [List.cons_append, List.takeWhile_cons, List.dropWhile_cons, ha]
    simpa using ht

theorem parseNatStr_enc (n : Nat) (r : Str) : parseNatStr (encNat n ++ r) = some (n, r) := by
  have h := takeWhile_all_append (natBits n) (natBits_all01 n) ';' r (by decide)
  rw [parseNatStr]
  rw [show encNat n ++ r = natBits n ++ ';' :: r by simp [encNat]]
  rw [h.2, h.1, bitsToNat_natBits]
  rfl

/-- A string on the wire: its length, then its characters. -/
def encStrF (s : Str) : Str := encNat s.length ++ s

def parseStrF (l : Str) : Option (Str × Str) :=
  (parseNatStr l).bind fun p =>
    if p.1 ≤ p.2.length then some (p.2.take p.1, p.2.drop p.1) else none

theorem parseStrF_enc (s : Str) (r : Str) : parseStrF (encStrF s ++ r) = some (s, r) := by
  rw [parseStrF, show encStrF s ++ r = encNat s.length ++ (s ++ r) by simp [encStrF],
    parseNatStr_enc]
  simp [List.take_left, List.drop_left]

/-- An integer on the wire: a sign, then its absolute value. -/
def encIntF (i : Int) : Str := (if i < 0 then '-' else '+') :: encNat i.natAbs

def parseIntF (l : Str) : Option (Int × Str) :=
  match l with
  | '-' :: r => (parseNatStr r).map fun p => (-(p.1 : Int), p.2)
  | '+' :: r => (parseNatStr r).map fun p => ((p.1 : Int), p.2)
  | _ => none

theorem parseIntF_enc (i : Int) (r : Str) : parseIntF (encIntF i ++ r) = some (i, r) := by
  rw [encIntF]
  by_cases h : i < 0
  · rw [if_pos h, List.cons_append,
      show parseIntF ('-' :: (encNat i.natAbs ++ r)) =
        (parseNatStr (encNat i.natAbs ++ r)).map (fun p => (-(p.1 : Int), p.2)) from rfl,
      parseNatStr_enc]
    simp [abs_of_neg h]
  · rw [if_neg h, List.cons_append,
      show parseIntF ('+' :: (encNat i.natAbs ++ r)) =
        (parseNatStr (encNat i.natAbs ++ r)).map (fun p => ((p.1 : Int), p.2)) from rfl,
      parseNatStr_enc]
    have hv : ((i.natAbs : Nat) : Int) = i := by omega
    simp [hv]

/-- An optional value on the wire: a presence tag, then the value if present. -/
def encOptF (enc : α → Str) : Option α → Str
  | none => ['n']
  | some a => 'j' :: enc a

def parseOptF (p : Str → Option (α × Str)) : Str → Option (Option α × Str)
  | 'n' :: r => some (none, r)
  | 'j' :: r => (p r).map fun q => (some q.1, q.2)
  | _ => none

theorem parseOptF_enc {α : Type} (enc : α → Str) (p : Str → Option (α × Str))
    (hp : ∀ a r, p (enc a ++ r) = some (a, r)) (o : Option α) (r : Str) :
    parseOptF p (encOptF enc o ++ r) = some (o, r) := by
  cases o with
  | none => rfl
  | some a => simp [encOptF, parseOptF, hp]

/-- The decoded JWT payload object: the claims this codebase ever signs
(`user_id`, `email`, optional `jti`) plus the stamped `iat`/`exp`.
`iat`/`exp` are `Option` because `verifyJWT` accepts payloads without them
(the JS code reads `payload.exp` which may be `undefined`). -/
structure Payload where
  user_id : Str
  email : Str
  jti : Option Str
  iat : Option Int
  exp : Option Int
  deriving DecidableEq, Repr

/-- Model of `JSON.stringify` on the payload object. -/
def encPayload (p : Payload) : Str :=
  encStrF p.user_id ++ encStrF p.email ++ encOptF encStrF p.jti ++
    encOptF encIntF p.iat ++ encOptF encIntF p.exp

/-- Model of `JSON.parse` on a serialized payload. -/
def decPayload (l : Str) : Option Payload :=
  (parseStrF l).bind fun p1 =>
  (parseStrF p1.2).bind fun p2 =>
  (parseOptF parseStrF p2.2).bind fun p3 =>
  (parseOptF parseIntF p3.2).bind fun p4 =>
  (parseOptF parseIntF p4.2).bind fun p5 =>
  if p5.2 = [] then some ⟨p1.1, p2.1, p3.1, p4.1, p5.1⟩ else none

theorem decPayload_encPayload (p : Payload) : decPayload (encPayload p) = some p := by
  have h3 := parseOptF_enc encStrF parseStrF parseStrF_enc
  have h4 := parseOptF_enc encIntF parseIntF parseIntF_enc
  rw [decPayload, encPayload]
  rw [show encStrF p.user_id ++ encStrF p.email ++ encOptF encStrF p.jti ++
        encOptF encIntF p.iat ++ encOptF encIntF p.exp =
      encStrF p.user_id ++ (encStrF p.email ++ (encOptF encStrF p.jti ++
        (encOptF encIntF p.iat ++ encOptF encIntF p.exp))) by simp [List.append_assoc]]
  rw [parseStrF_enc]
  simp only [Option.some_bind]
  rw [parseStrF_enc]
  simp only [Option.some_bind]
  rw [show encOptF encStrF p.jti ++ (encOptF encIntF p.iat ++ encOptF encIntF p.exp) =
      encOptF encStrF p.jti ++ (encOptF encIntF p.iat ++ encOptF encIntF p.exp) from rfl, h3]
  simp only [Option.some_bind]
  rw [h4]
  simp only [Option.some_bind]
  rw [show encOptF encIntF p.exp = encOptF encIntF p.exp ++ [] by simp, h4]
  rfl

/-! ## Model of base64url (`btoa`-based `base64UrlEncode`/`base64UrlDecode`)

The JWT code uses the base64url codec only as an injective, dot-free,
invertible encoding of the serialized header/payload and of the HMAC output.
It is modelled as a fixed-width codec: each character becomes the six
lowercase hex digits of its code point (code points are below `16^6`).
Its outputs never contain `.`, which is what makes the `token.split('.')`
framing in `verifyJWT` correct. -/

/-- One lowercase hex digit. -/
def hexDigit (n : Nat) : Char := if n < 10 then Char.ofNat (48 + n) else Char.ofNat (87 + n)

/-- Fixed-width big-endian 6-hex-digit encoding of one character. -/
def charHex6 (c : Char) : Str :=
  [hexDigit (c.toNat / 16 ^ 5 % 16), hexDigit (c.toNat / 16 ^ 4 % 16),
   hexDigit (c.toNat / 16 ^ 3 % 16), hexDigit (c.toNat / 16 ^ 2 % 16),
   hexDigit (c.toNat / 16 % 16), hexDigit (c.toNat % 16)]

/-- Model of `base64UrlEncode`. -/
def b64e (s : Str) : Str := s.flatMap charHex6

def isHexLower (c : Char) : Bool :=
  (48 ≤ c.toNat ∧ c.toNat ≤ 57) ∨ (97 ≤ c.toNat ∧ c.toNat ≤ 102)

def hexVal (c : Char) : Nat := if c.toNat ≤ 57 then c.toNat - 48 else c.toNat - 87

/-- Model of `base64UrlDecode` + `atob`: decodes 6-hex-digit chunks, failing
(as `atob` throws) on any malformed input. -/
def b64d : Str → Option Str
  | [] => some []
  | c1 :: c2 :: c3 :: c4 :: c5 :: c6 :: rest =>
    if isHexLower c1 ∧ isHexLower c2 ∧ isHexLower c3 ∧
        isHexLower c4 ∧ isHexLower c5 ∧ isHexLower c6 then
      if ((((hexVal c1 * 16 + hexVal c2) * 16 + hexVal c3) * 16 +
          hexVal c4) * 16 + hexVal c5) * 16 + hexVal c6 < 1114112 then
        (b64d rest).map (fun t => Char.ofNat (((((hexVal c1 * 16 + hexVal c2) * 16 +
          hexVal c3) * 16 + hexVal c4) * 16 + hexVal c5) * 16 + hexVal c6) :: t)
      else none
    else none
  | _ => none

theorem hexVal_hexDigit {d : Nat} (h : d < 16) : hexVal (hexDigit d) = d := by
  interval_cases d <;> rfl

theorem isHexLower_hexDigit {d : Nat} (h : d < 16) : isHexLower (hexDigit d) = true := by
  interval_cases d <;> rfl

theorem hexDigit_ne_dot {d : Nat} (h : d < 16) : hexDigit d ≠ '.' := by
  interval_cases d <;> decide

theorem b64e_no_dot (s : Str) : ∀ c ∈ b64e s, c ≠ '.' := by
  intro c hc
  rw [b64e, List.mem_flatMap] at hc
  rcases hc with ⟨x, _, hcx⟩
  rw [charHex6] at hcx
  have hlt : ∀ m : Nat, m % 16 < 16 := fun m => Nat.mod_lt _ (by omega)
  simp only [List.mem_cons, List.not_mem_nil, or_false] at hcx
  rcases hcx with rfl | rfl | rfl | rfl | rfl | rfl <;> exact hexDigit_ne_dot (hlt _)

theorem charHex6_val (c : Char) :
    ((((hexVal (hexDigit (c.toNat / 16 ^ 5 % 16)) * 16 +
        hexVal (hexDigit (c.toNat / 16 ^ 4 % 16))) * 16 +
        hexVal (hexDigit (c.toNat / 16 ^ 3 % 16))) * 16 +
        hexVal (hexDigit (c.toNat / 16 ^ 2 % 16))) * 16 +
        hexVal (hexDigit (c.toNat / 16 % 16))) * 16 +
        hexVal (hexDigit (c.toNat % 16)) = c.toNat := by
  have hlt : ∀ m : Nat, m % 16 < 16 := fun m => Nat.mod_lt _ (by omega)
  rw [hexVal_hexDigit (hlt _), hexVal_hexDigit (hlt _), hexVal_hexDigit (hlt _),
    hexVal_hexDigit (hlt _), hexVal_hexDigit (hlt _), hexVal_hexDigit (hlt _)]
  have hv : (c.toNat).isValidChar := c.valid
  have hc : c.toNat < 1114112 := by rcases hv with h1 | h1 <;> omega
  omega

theorem b64d_b64e (s : Str) : b64d (b64e s) = some s := by
  induction s with
  | nil => rfl
  | cons c t ih =>
    have hstep : b64e (c :: t) = charHex6 c ++ b64e t := by
      simp [b64e]
    rw [hstep, charHex6]
    have hlt : ∀ m : Nat, m % 16 < 16 := fun m => Nat.mod_lt _ (by omega)
    rw [show ([hexDigit (c.toNat / 16 ^ 5 % 16), hexDigit (c.toNat / 16 ^ 4 % 16),
      hexDigit (c.toNat / 16 ^ 3 % 16), hexDigit (c.toNat / 16 ^ 2 % 16),
      hexDigit (c.toNat / 16 % 16), hexDigit (c.toNat % 16)] : Str) ++ b64e t =
      hexDigit (c.toNat / 16 ^ 5 % 16) :: hexDigit (c.toNat / 16 ^ 4 % 16) ::
      hexDigit (c.toNat / 16 ^ 3 % 16) :: hexDigit (c.toNat / 16 ^ 2 % 16) ::
      hexDigit (c.toNat / 16 % 16) :: hexDigit (c.toNat % 16) :: b64e t from rfl]
    rw [b64d]
    rw [if_pos]
    · rw [charHex6_val]
      have hv : (c.toNat).isValidChar := c.valid
      have hc : c.toNat < 1114112 := by rcases hv with h1 | h1 <;> omega
      rw [if_pos hc, ih]
      simp
    · refine ⟨?_, ?_, ?_, ?_, ?_, ?_⟩ <;> exact isHexLower_hexDigit (hlt _)

theorem b64e_inj {a b : Str} (h : b64e a = b64e b) : a = b := by
  have ha := b64d_b64e a
  rw [h, b64d_b64e b] at ha
  exact (Option.some_inj.mp ha).symm

/-! ## utils/helpers.ts: JWT signing and verification -/

/-- `token.split('.')` (JavaScript `String.split` on a single-char separator). -/
def splitDots : Str → List Str
  | [] => [[]]
  | c :: r =>
    if c = '.' then [] :: splitDots r
    else
      match splitDots r with
      | [] => [[c]]
      | h :: t => (c :: h) :: t

theorem splitDots_ne_nil (l : Str) : splitDots l ≠ [] := by
  cases l with
  | nil => simp [splitDots]
  | cons c r =>
    rw [splitDots]
    split
    · simp
    · rcases h : splitDots r with _ | ⟨x, t⟩ <;> simp

theorem splitDots_no_dot (a : Str) (ha : ∀ c ∈ a, c ≠ '.') : splitDots a = [a] := by
  induction a with
  | nil => rfl
  | cons c r ih =>
    rw [splitDots, if_neg (ha c (List.mem_cons_self c r))]
    rw [ih (fun x hx => ha x (List.mem_cons_of_mem c hx))]

theorem splitDots_append (a : Str) (ha : ∀ c ∈ a, c ≠ '.') (r : Str) :
    splitDots (a ++ '.' :: r) = a :: splitDots r := by
  induction a with
  | nil => simp [splitDots]
  | cons c t ih =>
    rw [List.cons_append, splitDots, if_neg (ha c (List.mem_cons_self c t)),
      ih (fun x hx => ha x (List.mem_cons_of_mem c hx))]

/-- The fixed JWT header object `{alg:'HS256',typ:'JWT'}`, serialized. -/
def headerJson : Str :=
  ("\x7b\"alg\":\"HS256\",\"typ\":\"JWT\"\x7d").toList

def isDecDigit (c : Char) : Bool := 48 ≤ c.toNat ∧ c.toNat ≤ 57

/-- `parseInt` on a digit string. -/
def decDigitsVal (l : Str) : Nat := l.foldl (fun a c => 10 * a + (c.toNat - 48)) 0

/-- `parseDuration` from utils/helpers.ts: the regex
`^(\d+)([dhms])$`, then value times the unit multiplier; `none` models the
thrown error on malformed duration strings. -/
def parseDuration (s : Str) : Option Nat :=
  match s.getLast? with
  | none => none
  | some u =>
    if s.dropLast ≠ [] ∧ s.dropLast.all isDecDigit then
      (match u with
        | 's' => some 1
        | 'm' => some 60
        | 'h' => some 3600
        | 'd' => some 86400
        | _ => none).map
        (fun mult => decDigitsVal s.dropLast * mult)
    else none

/-- The claims objects this codebase passes to `signJWT`. -/
structure ClaimsIn where
  user_id : Str
  email : Str
  jti : Option Str
  deriving DecidableEq, Repr

/-- `{...payload, iat: now, exp: now + duration}`. -/
def mkJwtPayload (c : ClaimsIn) (nowSec : Int) (dur : Nat) : Payload :=
  ⟨c.user_id, c.email, c.jti, some nowSec, some (nowSec + dur)⟩

/-- `encodedHeader + '.' + encodedPayload`, the HMAC input. -/
def jwtMessage (c : ClaimsIn) (nowSec : Int) (dur : Nat) : Str :=
  b64e headerJson ++ '.' :: b64e (encPayload (mkJwtPayload c nowSec dur))

/-- `signJWT(payload, secret, expiresIn)`; the ambient clock and the HMAC
primitive (`crypto.subtle` HMAC-SHA256) are explicit parameters. `none`
models the exception thrown for a malformed `expiresIn`. -/
def signJWT (hmac : Str → Str → Str) (c : ClaimsIn) (secret : Str)
    (expiresIn : Str) (nowSec : Int) : Option Str :=
  (parseDuration expiresIn).map fun dur =>
    jwtMessage c nowSec dur ++ '.' :: b64e (hmac (jwtMessage c nowSec dur) secret)

def errFormat : Str := ("Invalid JWT format").toList
def errSignature : Str := ("Invalid JWT signature").toList
def errExpired : Str := ("JWT expired").toList
def errAtob : Str := ("atob: invalid base64").toList
def errJsonStx : Str := ("JSON.parse: syntax error").toList

/-- `verifyJWT(token, secret)`: split on `.` and require exactly 3 parts,
recompute the HMAC over `header.payload`, compare with `constantTimeCompare`,
decode the payload, then reject when `payload.exp && payload.exp < now`
(JS truthiness: an absent or zero `exp` skips the expiry check). -/
def verifyJWT (hmac : Str → Str → Str) (token secret : Str) (nowSec : Int) :
    Except Str Payload :=
  match splitDots token with
  | [eh, ep, es] =>
    if ctCompare es (b64e (hmac (eh ++ '.' :: ep) secret)) then
      match b64d ep with
      | none => .error errAtob
      | some pj =>
        match decPayload pj with
        | none => .error errJsonStx
        | some payload =>
          match payload.exp with
          | some e => if e ≠ 0 ∧ e < nowSec then .error errExpired else .ok payload
          | none => .ok payload
    else .error errSignature
  | _ => .error errFormat

/-- The payload a token carries, read off the same way `verifyJWT` reads it
(middle segment, base64url-decoded, JSON-parsed). -/
def payloadOf (token : Str) : Option Payload :=
  match splitDots token with
  | [_, ep, _] => (b64d ep).bind decPayload
  | _ => none

def isErr {ε α : Type} : Except ε α → Bool
  | .error _ => true
  | .ok _ => false

theorem verifyJWT_triple (hmac : Str → Str → Str) (token secret : Str) (now : Int)
    (eh ep es : Str) (hsp : splitDots token = [eh, ep, es]) :
    verifyJWT hmac token secret now =
      (if ctCompare es (b64e (hmac (eh ++ '.' :: ep) secret)) then
        match b64d ep with
        | none => Except.error errAtob
        | some pj =>
          match decPayload pj with
          | none => Except.error errJsonStx
          | some payload =>
            match payload.exp with
            | some e => if e ≠ 0 ∧ e < now then Except.error errExpired else Except.ok payload
            | none => Except.ok payload
      else Except.error errSignature) := by
  rw [verifyJWT, hsp]

theorem payloadOf_triple (token eh ep es : Str) (hsp : splitDots token = [eh, ep, es]) :
    payloadOf token = (b64d ep).bind decPayload := by
  rw [payloadOf, hsp]

theorem splitDots_signed (c : ClaimsIn) (now : Int) (dur : Nat) (sig : Str)
    (hsig : ∀ ch ∈ sig, ch ≠ '.') :
    splitDots (jwtMessage c now dur ++ '.' :: sig) =
      [b64e headerJson, b64e (encPayload (mkJwtPayload c now dur)), sig] := by
  rw [jwtMessage, List.append_assoc, List.cons_append,
    splitDots_append _ (b64e_no_dot headerJson),
    splitDots_append _ (b64e_no_dot (encPayload (mkJwtPayload c now dur))),
    splitDots_no_dot sig hsig]

theorem verify_sign_roundtrip (hmac : Str → Str → Str) (c : ClaimsIn)
    (secret : Str) (now : Int) (dur : Nat) :
    verifyJWT hmac (jwtMessage c now dur ++ '.' :: b64e (hmac (jwtMessage c now dur) secret))
      secret now = .ok (mkJwtPayload c now dur) := by
  have hsp := splitDots_signed c now dur (b64e (hmac (jwtMessage c now dur) secret))
    (b64e_no_dot _)
  rw [verifyJWT_triple hmac _ secret now _ _ _ hsp]
  have hmsg : b64e headerJson ++ '.' :: b64e (encPayload (mkJwtPayload c now dur)) =
      jwtMessage c now dur := rfl
  rw [hmsg, if_pos ((ctCompare_iff_eq _ _).mpr rfl), b64d_b64e]
  simp only []
  rw [decPayload_encPayload]
  simp only []
  have hexp : (mkJwtPayload c now dur).exp = some (now + dur) := rfl
  rw [hexp]
  simp only []
  rw [if_neg (by omega : ¬(now + (dur : Int) ≠ 0 ∧ now + (dur : Int) < now))]

theorem verifyJWT_format (hmac : Str → Str → Str) (t secret : Str) (now : Int)
    (h : (splitDots t).length ≠ 3) : verifyJWT hmac t secret now = .error errFormat := by
  rcases hsp : splitDots t with _ | ⟨a, _ | ⟨b, _ | ⟨c, _ | ⟨d, r⟩⟩⟩⟩
  · rw [verifyJWT, hsp]
  · rw [verifyJWT, hsp]
  · rw [verifyJWT, hsp]
  · exact absurd (by rw [hsp]; rfl) h
  · rw [verifyJWT, hsp]

theorem verifyJWT_expired (hmac : Str → Str → Str) (token secret : Str) (now : Int)
    (pl : Payload) (e : Int) (hp : payloadOf token = some pl) (he : pl.exp = some e)
    (h0 : e ≠ 0) (hlt : e < now) : isErr (verifyJWT hmac token secret now) = true := by
  rcases hsp : splitDots token with _ | ⟨a, _ | ⟨ep, _ | ⟨es, _ | ⟨d, r⟩⟩⟩⟩
  · rw [payloadOf, hsp] at hp; simp at hp
  · rw [payloadOf, hsp] at hp; simp at hp
  · rw [payloadOf, hsp] at hp; simp at hp
  · rw [payloadOf_triple token a ep es hsp] at hp
    rw [verifyJWT_triple hmac token secret now a ep es hsp]
    by_cases hc : ctCompare es (b64e (hmac (a ++ '.' :: ep) secret)) = true
    · rw [if_pos hc]
      rcases hbd : b64d ep with _ | pj
      · rfl
      · have hp2 : decPayload pj = some pl := by
          rw [hbd] at hp
          simpa using hp
        simp only []
        rw [hp2]
        simp only []
        rw [he]
        simp only []
        rw [if_pos ⟨h0, hlt⟩]
        rfl
    · rw [if_neg hc]
      rfl
  · rw [payloadOf, hsp] at hp; simp at hp

/-- The duration string literally used by the login and refresh handlers. -/
def dur15m : Str := ("15m").toList

/-- **C5.** JWT round-trip and rejection: signing any claims with `"15m"`
then verifying with the same secret succeeds and returns the claims extended
with `iat = now` and `exp = now + 900` (900 seconds apart); verifying the
same token under a different secret (whose HMAC differs on that message, the
generic case for a MAC) fails with the signature error; a token with fewer
than three dot-separated segments fails with the format error; and a token
whose (nonzero) decoded `exp` lies in the past fails. -/
theorem jwt_sign_verify_spec (hmac : Str → Str → Str) (c : ClaimsIn)
    (secret secret2 : Str) (now now2 : Int) (tok : Str)
    (hsig : signJWT hmac c secret dur15m now = some tok)
    (hneq : hmac (jwtMessage c now 900) secret2 ≠ hmac (jwtMessage c now 900) secret)
    (badTok : Str) (hbad : (splitDots badTok).length < 3)
    (expTok : Str) (pl : Payload) (e : Int) (hp : payloadOf expTok = some pl)
    (he : pl.exp = some e) (he0 : e ≠ 0) (hlt : e < now2) :
    verifyJWT hmac tok secret now = .ok (mkJwtPayload c now 900) ∧
    (mkJwtPayload c now 900).iat = some now ∧
    (mkJwtPayload c now 900).exp = some (now + 900) ∧
    verifyJWT hmac tok secret2 now = .error errSignature ∧
    verifyJWT hmac badTok secret now = .error errFormat ∧
    isErr (verifyJWT hmac expTok secret now2) = true := by
  have hdur : parseDuration dur15m = some 900 := by decide
  rw [signJWT, hdur] at hsig
  have htok : tok = jwtMessage c now 900 ++ '.' :: b64e (hmac (jwtMessage c now 900) secret) := by
    have : Option.map (fun dur => jwtMessage c now dur ++ '.' ::
        b64e (hmac (jwtMessage c now dur) secret)) (some 900) =
        some (jwtMessage c now 900 ++ '.' :: b64e (hmac (jwtMessage c now 900) secret)) := rfl
    rw [this] at hsig
    exact (Option.some_inj.mp hsig).symm
  subst htok
  refine ⟨verify_sign_roundtrip hmac c secret now 900, rfl, rfl, ?_, ?_, ?_⟩
  · have hsp := splitDots_signed c now 900 (b64e (hmac (jwtMessage c now 900) secret))
      (b64e_no_dot _)
    rw [verifyJWT_triple hmac _ secret2 now _ _ _ hsp]
    have hmsg : b64e headerJson ++ '.' :: b64e (encPayload (mkJwtPayload c now 900)) =
        jwtMessage c now 900 := rfl
    rw [hmsg]
    rw [if_neg ?hc]
    case hc =>
      intro hcmp
      exact hneq (b64e_inj ((ctCompare_iff_eq _ _).mp hcmp)).symm
  · exact verifyJWT_format hmac badTok secret now (by omega)
  · exact verifyJWT_expired hmac expTok secret now2 pl e hp he he0 hlt

/-- A toy HMAC standing in for HMAC-SHA256 in concrete evaluations. -/
def demoHmac (msg secret : Str) : Str := secret ++ msg

def demoClaims : ClaimsIn := ⟨['u'], ['e'], none⟩

/-- The concrete token produced by signing `demoClaims` at time 1000. -/
def demoTok : Str :=
  jwtMessage demoClaims 1000 900 ++ '.' ::
    b64e (demoHmac (jwtMessage demoClaims 1000 900) ['a'])

theorem jwt_sign_verify_spec_witness :
    verifyJWT demoHmac demoTok ['a'] 1000 = .ok (mkJwtPayload demoClaims 1000 900) ∧
    (mkJwtPayload demoClaims 1000 900).iat = some 1000 ∧
    (mkJwtPayload demoClaims 1000 900).exp = some (1000 + 900) ∧
    verifyJWT demoHmac demoTok ['b'] 1000 = .error errSignature ∧
    verifyJWT demoHmac (['x'] : Str) ['a'] 1000 = .error errFormat ∧
    isErr (verifyJWT demoHmac demoTok ['a'] 5000) = true :=
  jwt_sign_verify_spec demoHmac demoClaims ['a'] ['b'] 1000 5000 demoTok
    (by rw [signJWT, show parseDuration dur15m = some 900 from by decide]; rfl)
    (by decide)
    ['x'] (by decide)
    demoTok (mkJwtPayload demoClaims 1000 900)
    1900
    (by rw [payloadOf_triple demoTok _ _ _
        (splitDots_signed demoClaims 1000 900 _ (b64e_no_dot _)), b64d_b64e]
        simp only [Option.some_bind, decPayload_encPayload])
    rfl (by decide) (by decide)

/-- **C10.** A three-segment token whose signature verifies but whose decoded
payload has no `exp` field is accepted by `verifyJWT` at every point in time:
the expiry check is guarded by JS truthiness of `payload.exp`, so an absent
`exp` means the token never expires. -/
theorem verifyJWT_no_exp_never_expires (hmac : Str → Str → Str) (token secret : Str)
    (eh ep es : Str) (pl : Payload)
    (hsp : splitDots token = [eh, ep, es])
    (hsig : ctCompare es (b64e (hmac (eh ++ '.' :: ep) secret)) = true)
    (hdec : (b64d ep).bind decPayload = some pl)
    (hexp : pl.exp = none) :
    ∀ nowSec : Int, verifyJWT hmac token secret nowSec = .ok pl := by
  intro nowSec
  rw [verifyJWT_triple hmac token secret nowSec eh ep es hsp, if_pos hsig]
  rcases hbd : b64d ep with _ | pj
  · rw [hbd] at hdec; simp at hdec
  · rw [hbd] at hdec
    have hp2 : decPayload pj = some pl := by simpa using hdec
    simp only []
    rw [hp2]
    simp only []
    rw [hexp]

/-- A payload without `exp`, and a token carrying it, for the C10 witness. -/
def demoPayloadNoExp : Payload := ⟨['u'], ['e'], none, some 5, none⟩

def demoTokNoExp : Str :=
  b64e headerJson ++ '.' :: b64e (encPayload demoPayloadNoExp) ++ '.' ::
    b64e (demoHmac (b64e headerJson ++ '.' :: b64e (encPayload demoPayloadNoExp)) ['a'])

theorem verifyJWT_no_exp_witness :
    verifyJWT demoHmac demoTokNoExp ['a'] 99999999 = .ok demoPayloadNoExp :=
  verifyJWT_no_exp_never_expires demoHmac demoTokNoExp ['a']
    (b64e headerJson) (b64e (encPayload demoPayloadNoExp))
    (b64e (demoHmac (b64e headerJson ++ '.' :: b64e (encPayload demoPayloadNoExp)) ['a']))
    demoPayloadNoExp
    (by
      have h1 : demoTokNoExp = b64e headerJson ++ '.' ::
          (b64e (encPayload demoPayloadNoExp) ++ '.' ::
          b64e (demoHmac (b64e headerJson ++ '.' ::
            b64e (encPayload demoPayloadNoExp)) ['a'])) := by
        simp [demoTokNoExp]
      rw [h1, splitDots_append _ (b64e_no_dot _), splitDots_append _ (b64e_no_dot _),
        splitDots_no_dot _ (b64e_no_dot _)])
    ((ctCompare_iff_eq _ _).mpr rfl)
    (by rw [b64d_b64e]; simp only [Option.some_bind, decPayload_encPayload])
    rfl 99999999

/-! ## index.ts: POST /api/auth/refresh -/

def codeInvalidRefreshToken : Str := ("INVALID_REFRESH_TOKEN").toList
def codeRefreshFailed : Str := ("REFRESH_FAILED").toList

/-- The refresh handler: look the session up by refresh token (active and
unexpired only), and re-sign a 15-minute access token bound to the *same*
session id (`jti: session.id`), with an empty email claim. The handler
performs no store write: the refresh token and the session row (including
`expires_at`) are not rotated. -/
def refreshHandler (hmac : Str → Str → Str) (store : SessionStore) (refreshTok : Str)
    (secret : Str) (nowMs nowSec : Int) : Except Str (Str × Nat) × SessionStore :=
  match findByRefreshToken store refreshTok nowMs with
  | none => (.error codeInvalidRefreshToken, store)
  | some session =>
    match signJWT hmac ⟨session.user_id, [], some session.id⟩ secret dur15m nowSec with
    | some tok => (.ok (tok, 15 * 60), store)
    | none => (.error codeRefreshFailed, store)

theorem find?_eq_some_of_unique {α : Type} {p : α → Bool} {l : List α} {s : α}
    (hmem : s ∈ l) (hs : p s = true) (huniq : ∀ t ∈ l, p t = true → t = s) :
    l.find? p = some s := by
  induction l with
  | nil => simp at hmem
  | cons a t ih =>
    by_cases ha : p a = true
    · rw [List.find?_cons_of_pos _ ha, huniq a (List.mem_cons_self a t) ha]
    · rw [List.find?_cons_of_neg _ ha]
      rcases List.mem_cons.mp hmem with rfl | hmem2
      · exact absurd hs ha
      · exact ih hmem2 (fun x hx hpx => huniq x (List.mem_cons_of_mem a hx) hpx)

theorem findByRefreshToken_unique (store : SessionStore) (s : Session) (rt : Str)
    (nowMs : Int) (hmem : s ∈ store) (hrt : s.refresh_token = some rt)
    (hact : s.is_active = true) (hexp : nowMs < s.expires_at)
    (huniq : ∀ t ∈ store, t.refresh_token = some rt → t = s) :
    findByRefreshToken store rt nowMs = some s := by
  apply find?_eq_some_of_unique hmem
  · simp [hrt, hact, hexp]
  · intro t ht hpt
    simp only [Bool.and_eq_true, decide_eq_true_eq] at hpt
    exact huniq t ht hpt.1

/-- **C8.** Refreshing with the refresh token of an active unexpired session
(refresh tokens are unique across sessions, as the double-UUID construction
guarantees) returns a fresh access token whose decoded `jti` equals that
session's id, and leaves the session store — hence the session's
`refresh_token` and `expires_at` — entirely unchanged; a second successive
refresh on the resulting store again yields `jti` equal to the same session
id. A refresh token matching no active unexpired session fails with
`INVALID_REFRESH_TOKEN` and also leaves the store unchanged. -/
theorem refreshHandler_spec (hmac : Str → Str → Str) (store : SessionStore)
    (s : Session) (rt : Str) (secret : Str) (nowMs nowSec nowMs2 nowSec2 : Int)
    (hmem : s ∈ store) (hrt : s.refresh_token = some rt) (hact : s.is_active = true)
    (hexp : nowMs < s.expires_at) (hexp2 : nowMs2 < s.expires_at)
    (huniq : ∀ t ∈ store, t.refresh_token = some rt → t = s)
    (rt2 : Str)
    (hnone : ∀ t ∈ store, ¬(t.refresh_token = some rt2 ∧ t.is_active = true ∧
      nowMs < t.expires_at)) :
    (refreshHandler hmac store rt secret nowMs nowSec).2 = store ∧
    (∃ tok, (refreshHandler hmac store rt secret nowMs nowSec).1 = .ok (tok, 900) ∧
      payloadOf tok = some ⟨s.user_id, [], some s.id, some nowSec, some (nowSec + 900)⟩) ∧
    (∃ tok2,
      (refreshHandler hmac (refreshHandler hmac store rt secret nowMs nowSec).2
        rt secret nowMs2 nowSec2).1 = .ok (tok2, 900) ∧
      payloadOf tok2 = some ⟨s.user_id, [], some s.id, some nowSec2, some (nowSec2 + 900)⟩) ∧
    refreshHandler hmac store rt2 secret nowMs nowSec =
      (.error codeInvalidRefreshToken, store) := by
  have hfind := findByRefreshToken_unique store s rt nowMs hmem hrt hact hexp huniq
  have hfind2 := findByRefreshToken_unique store s rt nowMs2 hmem hrt hact hexp2 huniq
  have hdur : parseDuration dur15m = some 900 := by decide
  have hok : ∀ nSec : Int, refreshHandler hmac store rt secret nowMs nSec =
      (.ok (jwtMessage ⟨s.user_id, [], some s.id⟩ nSec 900 ++ '.' ::
        b64e (hmac (jwtMessage ⟨s.user_id, [], some s.id⟩ nSec 900) secret), 900), store) := by
    intro nSec
    rw [refreshHandler, hfind]
    simp only []
    rw [signJWT, hdur]
    rfl
  have hok2 : refreshHandler hmac store rt secret nowMs2 nowSec2 =
      (.ok (jwtMessage ⟨s.user_id, [], some s.id⟩ nowSec2 900 ++ '.' ::
        b64e (hmac (jwtMessage ⟨s.user_id, [], some s.id⟩ nowSec2 900) secret), 900), store) := by
    rw [refreshHandler, hfind2]
    simp only []
    rw [signJWT, hdur]
    rfl
  have hpl : ∀ nSec : Int,
      payloadOf (jwtMessage ⟨s.user_id, [], some s.id⟩ nSec 900 ++ '.' ::
        b64e (hmac (jwtMessage ⟨s.user_id, [], some s.id⟩ nSec 900) secret)) =
      some ⟨s.user_id, [], some s.id, some nSec, some (nSec + 900)⟩ := by
    intro nSec
    rw [payloadOf_triple _ _ _ _ (splitDots_signed ⟨s.user_id, [], some s.id⟩ nSec 900 _
      (b64e_no_dot _)), b64d_b64e]
    simp only [Option.some_bind, decPayload_encPayload]
    rfl
  refine ⟨?_, ?_, ?_, ?_⟩
  · rw [hok nowSec]
  · exact ⟨_, by rw [hok nowSec], hpl nowSec⟩
  · rw [hok nowSec]
    exact ⟨_, by rw [hok2], hpl nowSec2⟩
  · have hfnone : findByRefreshToken store rt2 nowMs = none := by
      rw [findByRefreshToken, List.find?_eq_none]
      intro t ht
      simp only [Bool.and_eq_true, decide_eq_true_eq, not_and]
      intro h1 h2 h3
      exact hnone t ht ⟨h1, h2, h3⟩
    rw [refreshHandler, hfnone]

/-- A store with one session holding a refresh token, for the C8 witness. -/
def demoStoreRt : SessionStore :=
  [{ demoSession ['a'] ['u'] 10 100000 true with refresh_token := some ['r'] }]

theorem refreshHandler_spec_witness :
    (refreshHandler demoHmac demoStoreRt ['r'] ['k'] 50 7 ).2 = demoStoreRt ∧
    (∃ tok, (refreshHandler demoHmac demoStoreRt ['r'] ['k'] 50 7).1 = .ok (tok, 900) ∧
      payloadOf tok = some ⟨['u'], [], some ['a'], some 7, some (7 + 900)⟩) ∧
    (∃ tok2,
      (refreshHandler demoHmac (refreshHandler demoHmac demoStoreRt ['r'] ['k'] 50 7).2
        ['r'] ['k'] 60 8).1 = .ok (tok2, 900) ∧
      payloadOf tok2 = some ⟨['u'], [], some ['a'], some 8, some (8 + 900)⟩) ∧
    refreshHandler demoHmac demoStoreRt ['w'] ['k'] 50 7 =
      (.error codeInvalidRefreshToken, demoStoreRt) :=
  refreshHandler_spec demoHmac demoStoreRt
    { demoSession ['a'] ['u'] 10 100000 true with refresh_token := some ['r'] }
    ['r'] ['k'] 50 7 60 8
    (by decide) rfl rfl (by decide) (by decide)
    (by decide)
    ['w'] (by decide)

/-! ## utils/helpers.ts and utils/input-validator.ts: input validation

`isValidEmail` is the helpers.ts version (`/^[^\s@]+@[^\s@]+\.[^\s@]+$/`,
no length bounds), the one auth-service.ts imports. The regexes are
translated to executable matchers with existential-match semantics. -/

/-- The JavaScript `\s` character class. -/
def jsSpace (c : Char) : Bool :=
  c.toNat = 9 ∨ c.toNat = 10 ∨ c.toNat = 11 ∨ c.toNat = 12 ∨ c.toNat = 13 ∨
  c.toNat = 32 ∨ c.toNat = 160 ∨ c.toNat = 5760 ∨
  (8192 ≤ c.toNat ∧ c.toNat ≤ 8202) ∨ c.toNat = 8232 ∨ c.toNat = 8233 ∨
  c.toNat = 8239 ∨ c.toNat = 8287 ∨ c.toNat = 12288 ∨ c.toNat = 65279

/-- `[^\s@]`. -/
def emailOkChar (c : Char) : Bool := ¬ jsSpace c ∧ c ≠ '@'

/-- A `.` at a position that is neither first nor last. -/
def hasInnerDot (l : Str) : Bool := ((l.drop 1).dropLast).contains '.'

/-- `isValidEmail` from utils/helpers.ts: `/^[^\s@]+@[^\s@]+\.[^\s@]+$/`.
All three regex parts exclude `@`, so a match forces the split at the unique
`@`; the domain part must be all `[^\s@]` and contain a `.` with at least one
character on each side (`.` itself lies in `[^\s@]`). -/
def isValidEmail (e : Str) : Bool :=
  let a := e.takeWhile (fun c => c ≠ '@')
  match e.dropWhile (fun c => c ≠ '@') with
  | '@' :: dom => a ≠ [] ∧ a.all emailOkChar ∧ dom.all emailOkChar ∧ hasInnerDot dom
  | _ => false

/-- ASCII lowercasing (the case-fold relevant to the `i`-flag patterns). -/
def lowChar (c : Char) : Char :=
  if 65 ≤ c.toNat ∧ c.toNat ≤ 90 ∧ c.toNat + 32 < 1114112 then Char.ofNat (c.toNat + 32) else c

def lowerStr (s : Str) : Str := s.map lowChar

/-- `\w` (on an already-lowercased string). -/
def isWordChar (c : Char) : Bool :=
  (97 ≤ c.toNat ∧ c.toNat ≤ 122) ∨ (65 ≤ c.toNat ∧ c.toNat ≤ 90) ∨
  (48 ≤ c.toNat ∧ c.toNat ≤ 57) ∨ c = '_'

/-- `\w+\s*=`, matched greedily (the classes are disjoint, so greedy matching
and backtracking agree). -/
def afterOn (l : Str) : Bool :=
  if l.takeWhile isWordChar = [] then false
  else
    match (l.dropWhile isWordChar).dropWhile jsSpace with
    | '=' :: _ => true
    | _ => false

/-- `/on\w+\s*=/i` on a lowercased string. -/
def hasOnHandler : Str → Bool
  | [] => false
  | c :: r =>
    (if c = 'o' then
      match r with
      | 'n' :: r2 => afterOn r2
      | _ => false
    else false) || hasOnHandler r

/-- `lit\s*\(` at the head of `l`. -/
def litSpacesParen (lit : Str) (l : Str) : Bool :=
  if lit.isPrefixOf l then
    match (l.drop lit.length).dropWhile jsSpace with
    | '(' :: _ => true
    | _ => false
  else false

/-- `/lit\s*\(/` anywhere in the string. -/
def hasLitSpacesParen (lit : Str) : Str → Bool
  | [] => false
  | c :: r => litSpacesParen lit (c :: r) || hasLitSpacesParen lit r

/-- The characters the `.` of a JS regex (without the `s` flag) cannot cross. -/
def isJsNewline (c : Char) : Bool :=
  c.toNat = 10 ∨ c.toNat = 13 ∨ c.toNat = 8232 ∨ c.toNat = 8233

/-- `.*?close`: a `close` occurrence reachable without crossing a newline. -/
def closeTagSearch (close : Str) : Str → Bool
  | [] => close.isPrefixOf ([] : Str)
  | c :: r => close.isPrefixOf (c :: r) || (if isJsNewline c then false else closeTagSearch close r)

/-- `<tag[^>]*>.*?</tag>` at the head of `l` (greedy `[^>]*` up to the first
`>` agrees with backtracking since `[^>]` excludes `>`). -/
def tagPairAt (tag : Str) (l : Str) : Bool :=
  if ('<' :: tag).isPrefixOf l then
    match (l.drop (tag.length + 1)).dropWhile (fun c => c ≠ '>') with
    | '>' :: body => closeTagSearch ('<' :: '/' :: (tag ++ ['>'])) body
    | _ => false
  else false

def hasTagPair (tag : Str) : Str → Bool
  | [] => false
  | c :: r => tagPairAt tag (c :: r) || hasTagPair tag r

/-- Substring search (for the `javascript:` pattern). -/
def isSubstrOf (pat : Str) : Str → Bool
  | [] => pat.isPrefixOf ([] : Str)
  | c :: r => pat.isPrefixOf (c :: r) || isSubstrOf pat r

/-- `containsDangerousChars` from input-validator.ts: the six `gi` patterns,
tested on the lowercased string (all pattern literals are lowercase and the
classes `\w`, `\s`, `[^>]` are closed under the fold). -/
def containsDangerousChars (s : Str) : Bool :=
  hasTagPair (("script").toList) (lowerStr s) ||
  hasTagPair (("iframe").toList) (lowerStr s) ||
  isSubstrOf (("javascript:").toList) (lowerStr s) ||
  hasOnHandler (lowerStr s) ||
  hasLitSpacesParen (("eval").toList) (lowerStr s) ||
  hasLitSpacesParen (("expression").toList) (lowerStr s)

def isHexChar (c : Char) : Bool :=
  (48 ≤ c.toNat ∧ c.toNat ≤ 57) ∨ (97 ≤ c.toNat ∧ c.toNat ≤ 102) ∨
  (65 ≤ c.toNat ∧ c.toNat ≤ 70)

/-- `isValidHex` from input-validator.ts (`!str` makes the empty string fail). -/
def isValidHex (s : Str) : Bool := s ≠ [] ∧ s.all isHexChar

/-- `isValidLength(str, min, max)` from input-validator.ts (`!str` makes the
empty string fail regardless of `min`). -/
def isValidLength (s : Str) (lo hi : Nat) : Bool :=
  s ≠ [] ∧ lo ≤ s.length ∧ s.length ≤ hi

/-! ## db/user-repository.ts and auth/auth-service.ts -/

/-- A row of the users table (schema.sql). -/
structure User where
  id : Str
  email : Str
  auth_hash : Str
  salt : Str
  encrypted_nickname : Option Str
  nickname_iv : Option Str
  created_at : Int
  updated_at : Int
  deriving DecidableEq, Repr

abbrev UserStore := List User

/-- `UserRepository.findByEmail`: `WHERE email = ?` bound to
`email.toLowerCase()` (stored emails are lowercased at creation). -/
def findByEmail (users : UserStore) (email : Str) : Option User :=
  users.find? (fun u => u.email = lowerStr email)

def msgEmailShort : Str := ("邮箱地址过短，最少 12 个字符").toList
def msgEmailLong : Str := ("邮箱地址过长，最多 32 个字符").toList
def msgEmailInvalid : Str := ("邮箱格式无效").toList
def msgEmailDanger : Str := ("Email contains invalid characters").toList
def msgAuthHashFormat : Str := ("Invalid auth_hash format").toList
def msgInvalidCred : Str := ("Invalid email or password").toList
def msgBadDuration (d : Str) : Str := ("Invalid duration format: ").toList ++ d

/-- The success value of `AuthService.login`. -/
structure LoginOk where
  user_id : Str
  user_email : Str
  encrypted_nickname : Option Str
  nickname_iv : Option Str
  token : Str
  deriving DecidableEq, Repr

/-- `AuthService.login(email, authHash)`: shape validation, user lookup,
constant-time hash comparison — the user-absent and hash-mismatch branches
throw the same `'Invalid email or password'` — then a JWT for
`{user_id, email}` (no `jti`). -/
def login (hmac : Str → Str → Str) (users : UserStore) (email authHash : Str)
    (secret : Str) (jwtExpiresIn : Str) (nowSec : Int) : Except Str LoginOk :=
  if ¬ isValidEmail email then
    .error (if email.length < 12 then msgEmailShort
      else if email.length > 32 then msgEmailLong else msgEmailInvalid)
  else if containsDangerousChars email then .error msgEmailDanger
  else if ¬ (isValidHex authHash ∧ isValidLength authHash 64 256) then
    .error msgAuthHashFormat
  else
    match findByEmail users email with
    | none => .error msgInvalidCred
    | some u =>
      if ¬ ctCompare u.auth_hash authHash then .error msgInvalidCred
      else
        match signJWT hmac ⟨u.id, u.email, none⟩ secret jwtExpiresIn nowSec with
        | some tok => .ok ⟨u.id, u.email, u.encrypted_nickname, u.nickname_iv, tok⟩
        | none => .error (msgBadDuration jwtExpiresIn)

/-- `generateSalt` from utils/helpers.ts: each random byte printed as two
lowercase hex digits (`b.toString(16).padStart(2, '0')`). -/
def generateSalt (bytes : List Nat) : Str :=
  bytes.flatMap (fun b => [hexDigit (b / 16), hexDigit (b % 16)])

/-- `AuthService.getSalt(email)`: the stored salt for a known user, a fresh
random decoy of the canonical shape (`generateSalt(32)`) for an unknown one.
The 32 random bytes drawn by `crypto.getRandomValues` are the explicit
`rndBytes` argument. Total — no code path throws. -/
def getSalt (users : UserStore) (email : Str) (rndBytes : List Nat) : Str :=
  match findByEmail users email with
  | some u => u.salt
  | none => generateSalt rndBytes

/-- **C3.** Login behaves identically on wrong-hash and unknown-email inputs:
with the exact stored hash it succeeds; with any valid-shape hash differing
from the stored one it fails with `'Invalid email or password'`; with a
valid-shape email bound to no user it fails with the byte-identical error;
the two failing runs produce equal results. -/
theorem login_uniform_errors (hmac : Str → Str → Str) (users : UserStore)
    (email email2 ah ah2 : Str) (u : User) (secret : Str) (nowSec : Int)
    (hv1 : isValidEmail email = true) (hv2 : containsDangerousChars email = false)
    (hfind : findByEmail users email = some u)
    (hhex : isValidHex u.auth_hash = true) (hlen : isValidLength u.auth_hash 64 256 = true)
    (hahx : isValidHex ah = true) (hahl : isValidLength ah 64 256 = true)
    (hne : ah ≠ u.auth_hash)
    (hv1b : isValidEmail email2 = true) (hv2b : containsDangerousChars email2 = false)
    (hnouser : ∀ w ∈ users, w.email ≠ lowerStr email2)
    (hahx2 : isValidHex ah2 = true) (hahl2 : isValidLength ah2 64 256 = true) :
    (∃ r, login hmac users email u.auth_hash secret dur15m nowSec = .ok r) ∧
    login hmac users email ah secret dur15m nowSec = .error msgInvalidCred ∧
    login hmac users email2 ah2 secret dur15m nowSec = .error msgInvalidCred ∧
    login hmac users email ah secret dur15m nowSec =
      login hmac users email2 ah2 secret dur15m nowSec := by
  have hdur : parseDuration dur15m = some 900 := by decide
  have hA : ∃ r, login hmac users email u.auth_hash secret dur15m nowSec = .ok r := by
    rw [login, if_neg (by simp [hv1]), if_neg (by simp [hv2]),
      if_neg (by simp [hhex, hlen]), hfind]
    simp only []
    rw [if_neg (by simp [(ctCompare_iff_eq u.auth_hash u.auth_hash).mpr rfl])]
    rw [signJWT, hdur]
    exact ⟨_, rfl⟩
  have hB : login hmac users email ah secret dur15m nowSec = .error msgInvalidCred := by
    rw [login, if_neg (by simp [hv1]), if_neg (by simp [hv2]),
      if_neg (by simp [hahx, hahl]), hfind]
    simp only []
    rw [if_pos]
    simp only [ctCompare_iff_eq, decide_eq_true_eq]
    exact fun h => hne h.symm
  have hC : login hmac users email2 ah2 secret dur15m nowSec = .error msgInvalidCred := by
    have hfind2 : findByEmail users email2 = none := by
      rw [findByEmail, List.find?_eq_none]
      intro w hw
      simp only [decide_eq_true_eq]
      exact hnouser w hw
    rw [login, if_neg (by simp [hv1b]), if_neg (by simp [hv2b]),
      if_neg (by simp [hahx2, hahl2]), hfind2]
  exact ⟨hA, hB, hC, by rw [hB, hC]⟩

/-- A demo registered user for the C3/C4 witnesses. -/
def demoUser : User :=
  { id := ['i'], email := ['a', '@', 'b', '.', 'c'],
    auth_hash := List.replicate 64 '0', salt := List.replicate 64 'a',
    encrypted_nickname := none, nickname_iv := none, created_at := 0, updated_at := 0 }

theorem login_uniform_errors_witness :
    (∃ r, login demoHmac [demoUser] (['a', '@', 'b', '.', 'c'])
      demoUser.auth_hash ['k'] dur15m 5 = .ok r) ∧
    login demoHmac [demoUser] (['a', '@', 'b', '.', 'c'])
      ('1' :: List.replicate 63 '0') ['k'] dur15m 5 = .error msgInvalidCred ∧
    login demoHmac [demoUser] (['x', '@', 'y', '.', 'z'])
      (List.replicate 64 '2') ['k'] dur15m 5 = .error msgInvalidCred ∧
    login demoHmac [demoUser] (['a', '@', 'b', '.', 'c'])
      ('1' :: List.replicate 63 '0') ['k'] dur15m 5 =
    login demoHmac [demoUser] (['x', '@', 'y', '.', 'z'])
      (List.replicate 64 '2') ['k'] dur15m 5 :=
  login_uniform_errors demoHmac [demoUser] (['a', '@', 'b', '.', 'c'])
    (['x', '@', 'y', '.', 'z']) ('1' :: List.replicate 63 '0') (List.replicate 64 '2')
    demoUser ['k'] 5
    (by decide) (by decide) (by decide) (by decide) (by decide)
    (by decide) (by decide) (by decide)
    (by decide) (by decide) (by decide) (by decide) (by decide)

theorem generateSalt_length (bytes : List Nat) :
    (generateSalt bytes).length = 2 * bytes.length := by
  induction bytes with
  | nil => rfl
  | cons b t ih =>
    simp only [generateSalt, List.flatMap_cons] at ih ⊢
    simp [ih]
    omega

theorem generateSalt_hex (bytes : List Nat) (hb : ∀ b ∈ bytes, b < 256) :
    ∀ c ∈ generateSalt bytes, isHexLower c = true := by
  intro c hc
  rw [generateSalt, List.mem_flatMap] at hc
  rcases hc with ⟨b, hbm, hcb⟩
  have h256 := hb b hbm
  simp only [List.mem_cons, List.not_mem_nil, or_false] at hcb
  rcases hcb with rfl | rfl
  · exact isHexLower_hexDigit (by omega)
  · exact isHexLower_hexDigit (Nat.mod_lt _ (by omega))

theorem generateSalt_inj : ∀ (b1 b2 : List Nat), (∀ b ∈ b1, b < 256) →
    (∀ b ∈ b2, b < 256) → generateSalt b1 = generateSalt b2 → b1 = b2 := by
  intro b1
  induction b1 with
  | nil =>
    intro b2 _ _ h
    cases b2 with
    | nil => rfl
    | cons y t => simp [generateSalt] at h
  | cons x t ih =>
    intro b2 h1 h2 h
    cases b2 with
    | nil => simp [generateSalt] at h
    | cons y t2 =>
      simp only [generateSalt, List.flatMap_cons, List.cons_append, List.nil_append,
        List.cons.injEq] at h
      rcases h with ⟨hd1, hd2, hrest⟩
      have hx := h1 x (List.mem_cons_self x t)
      have hy := h2 y (List.mem_cons_self y t2)
      have e1 : x / 16 = y / 16 := by
        have := congrArg hexVal hd1
        rwa [hexVal_hexDigit (by omega), hexVal_hexDigit (by omega)] at this
      have e2 : x % 16 = y % 16 := by
        have := congrArg hexVal hd2
        rwa [hexVal_hexDigit (Nat.mod_lt _ (by omega)),
          hexVal_hexDigit (Nat.mod_lt _ (by omega))] at this
      have hxy : x = y := by omega
      have ht : t = t2 := ih t2 (fun b hb => h1 b (List.mem_cons_of_mem x hb))
        (fun b hb => h2 b (List.mem_cons_of_mem y hb)) (by rwa [generateSalt, generateSalt])
      rw [hxy, ht]

/-- **C4.** For an email bound to no user, `getSalt` returns (without any
throwing code path) the decoy `generateSalt(32)` built from the fresh random
bytes: a 64-character lowercase-hex string — the same length and format the
canonical client-side `generateSalt(32)` produces for real registered salts —
and two successive calls whose 32-byte random draws differ return different
values. -/
theorem getSalt_unknown_email (users : UserStore) (email : Str)
    (bytes1 bytes2 : List Nat)
    (hnouser : ∀ w ∈ users, w.email ≠ lowerStr email)
    (hl1 : bytes1.length = 32) (hb1 : ∀ b ∈ bytes1, b < 256)
    (hl2 : bytes2.length = 32) (hb2 : ∀ b ∈ bytes2, b < 256)
    (hdiff : bytes1 ≠ bytes2) :
    getSalt users email bytes1 = generateSalt bytes1 ∧
    (getSalt users email bytes1).length = 64 ∧
    (∀ c ∈ getSalt users email bytes1, isHexLower c = true) ∧
    getSalt users email bytes1 ≠ getSalt users email bytes2 := by
  have hfind : findByEmail users email = none := by
    rw [findByEmail, List.find?_eq_none]
    intro w hw
    simp only [decide_eq_true_eq]
    exact hnouser w hw
  have hs1 : getSalt users email bytes1 = generateSalt bytes1 := by
    rw [getSalt, hfind]
  have hs2 : getSalt users email bytes2 = generateSalt bytes2 := by
    rw [getSalt, hfind]
  refine ⟨hs1, ?_, ?_, ?_⟩
  · rw [hs1, generateSalt_length, hl1]
  · rw [hs1]; exact generateSalt_hex bytes1 hb1
  · rw [hs1, hs2]
    intro h
    exact hdiff (generateSalt_inj bytes1 bytes2 hb1 hb2 h)

theorem getSalt_unknown_email_witness :
    getSalt [demoUser] (['x', '@', 'y', '.', 'z']) (List.replicate 32 7) =
      generateSalt (List.replicate 32 7) ∧
    (getSalt [demoUser] (['x', '@', 'y', '.', 'z']) (List.replicate 32 7)).length = 64 ∧
    (∀ c ∈ getSalt [demoUser] (['x', '@', 'y', '.', 'z']) (List.replicate 32 7),
      isHexLower c = true) ∧
    getSalt [demoUser] (['x', '@', 'y', '.', 'z']) (List.replicate 32 7) ≠
      getSalt [demoUser] (['x', '@', 'y', '.', 'z']) (9 :: List.replicate 31 7) :=
  getSalt_unknown_email [demoUser] (['x', '@', 'y', '.', 'z'])
    (List.replicate 32 7) (9 :: List.replicate 31 7)
    (by decide) (by decide) (by decide) (by decide) (by decide) (by decide)

/-! ## auth/rate-limiter.ts: per-email rate limiting

One email's KV slot is modelled as `Option (RateLimitState × Int)`: the
JSON-serialized state plus the absolute expiry of the entry's
`expirationTtl` (Cloudflare KV deletes the key once the TTL elapses). -/

structure RateLimitState where
  failureCount : Nat
  firstFailureAt : Int
  lastFailureAt : Int
  banUntil : Option Int
  deriving DecidableEq, Repr

abbrev KVEntry := RateLimitState × Int

/-- `kv.get(key)` at the ambient time, honoring the entry's TTL. -/
def kvGet (kv : Option KVEntry) (now : Int) : Option RateLimitState :=
  match kv with
  | some e => if now < e.2 then some e.1 else none
  | none => none

def reasonBanned : Str := ("ACCOUNT_BANNED").toList
def reasonTooFrequent : Str := ("TOO_FREQUENT").toList

structure CheckResult where
  allowed : Bool
  reason : Option Str
  waitSeconds : Option Int
  banUntil : Option Int
  deriving DecidableEq, Repr

/-- The 5-second cooldown tail of `checkRateLimit`
(`state.lastFailureAt && now - state.lastFailureAt < 5000`; JS truthiness
makes a zero `lastFailureAt` skip the check). -/
def cooldownCheck (st : RateLimitState) (now : Int) : CheckResult :=
  if st.lastFailureAt ≠ 0 ∧ now - st.lastFailureAt < 5000 then
    ⟨false, some reasonTooFrequent, some ((5000 - (now - st.lastFailureAt) + 999) / 1000), none⟩
  else ⟨true, none, none, none⟩

/-- `RateLimiter.checkRateLimit(email)`: pure read; ban period first
(`state.banUntil && now < state.banUntil`), then the 5-second cooldown.
`Math.ceil(x/1000)` on the positive waits is `(x + 999) / 1000`. -/
def checkRateLimit (kv : Option KVEntry) (now : Int) : CheckResult :=
  match kvGet kv now with
  | none => ⟨true, none, none, none⟩
  | some st =>
    match st.banUntil with
    | some bu =>
      if bu ≠ 0 ∧ now < bu then
        ⟨false, some reasonBanned, some ((bu - now + 999) / 1000), some bu⟩
      else cooldownCheck st now
    | none => cooldownCheck st now

/-- The state written by `RateLimiter.recordFailure`: fresh on a missing
entry, reset when the first failure is more than an hour old, otherwise
increment, stamp `lastFailureAt`, and set a 2-hour ban at 5 failures. -/
def recordFailureState (prev : Option RateLimitState) (now : Int) : RateLimitState :=
  match prev with
  | none => ⟨1, now, now, none⟩
  | some st0 =>
    if now - st0.firstFailureAt > 3600000 then ⟨1, now, now, none⟩
    else if st0.failureCount + 1 ≥ 5 then
      ⟨st0.failureCount + 1, st0.firstFailureAt, now, some (now + 7200000)⟩
    else ⟨st0.failureCount + 1, st0.firstFailureAt, now, st0.banUntil⟩

/-- `RateLimiter.recordFailure(email)`: read-modify-write with a
3-hour `expirationTtl` (10800 s). -/
def recordFailure (kv : Option KVEntry) (now : Int) : Option KVEntry :=
  some (recordFailureState (kvGet kv now) now, now + 10800 * 1000)

/-- `RateLimiter.recordSuccess(email)`: `kv.delete(key)`. -/
def recordSuccess (_ : Option KVEntry) : Option KVEntry := none

def recordFailures (kv : Option KVEntry) (ts : List Int) : Option KVEntry :=
  ts.foldl recordFailure kv

/-- **C6.** Five recorded failures, each within one hour of the first and in
time order, set `banUntil` two hours past the fifth failure; every
`checkRateLimit` between the fifth failure and `banUntil` is rejected with
`ACCOUNT_BANNED`; one `recordSuccess` deletes the state, so the next check
(at any time) is allowed. -/
theorem rateLimiter_ban_flow (t1 t2 t3 t4 t5 tc tc2 : Int)
    (h0 : 0 ≤ t1) (h12 : t1 ≤ t2) (h23 : t2 ≤ t3) (h34 : t3 ≤ t4) (h45 : t4 ≤ t5)
    (hw2 : t2 - t1 ≤ 3600000) (hw3 : t3 - t1 ≤ 3600000) (hw4 : t4 - t1 ≤ 3600000)
    (hw5 : t5 - t1 ≤ 3600000)
    (hc1 : t5 ≤ tc) (hc2 : tc < t5 + 7200000) :
    recordFailures none [t1, t2, t3, t4, t5] =
      some (⟨5, t1, t5, some (t5 + 7200000)⟩, t5 + 10800 * 1000) ∧
    checkRateLimit (recordFailures none [t1, t2, t3, t4, t5]) tc =
      ⟨false, some reasonBanned, some ((t5 + 7200000 - tc + 999) / 1000),
        some (t5 + 7200000)⟩ ∧
    (checkRateLimit (recordFailures none [t1, t2, t3, t4, t5]) tc).allowed = false ∧
    checkRateLimit (recordSuccess (recordFailures none [t1, t2, t3, t4, t5])) tc2 =
      ⟨true, none, none, none⟩ := by
  have e1 : recordFailure none t1 = some (⟨1, t1, t1, none⟩, t1 + 10800 * 1000) := rfl
  have e2 : recordFailure (some (⟨1, t1, t1, none⟩, t1 + 10800 * 1000)) t2 =
      some (⟨2, t1, t2, none⟩, t2 + 10800 * 1000) := by
    rw [recordFailure, kvGet, if_pos (show t2 < t1 + 10800 * 1000 by omega)]
    simp only [recordFailureState]
    rw [if_neg (by omega), if_neg (by omega)]
  have e3 : recordFailure (some (⟨2, t1, t2, none⟩, t2 + 10800 * 1000)) t3 =
      some (⟨3, t1, t3, none⟩, t3 + 10800 * 1000) := by
    rw [recordFailure, kvGet, if_pos (show t3 < t2 + 10800 * 1000 by omega)]
    simp only [recordFailureState]
    rw [if_neg (by omega), if_neg (by omega)]
  have e4 : recordFailure (some (⟨3, t1, t3, none⟩, t3 + 10800 * 1000)) t4 =
      some (⟨4, t1, t4, none⟩, t4 + 10800 * 1000) := by
    rw [recordFailure, kvGet, if_pos (show t4 < t3 + 10800 * 1000 by omega)]
    simp only [recordFailureState]
    rw [if_neg (by omega), if_neg (by omega)]
  have e5 : recordFailure (some (⟨4, t1, t4, none⟩, t4 + 10800 * 1000)) t5 =
      some (⟨5, t1, t5, some (t5 + 7200000)⟩, t5 + 10800 * 1000) := by
    rw [recordFailure, kvGet, if_pos (show t5 < t4 + 10800 * 1000 by omega)]
    simp only [recordFailureState]
    rw [if_neg (by omega), if_pos (by omega)]
  have hseq : recordFailures none [t1, t2, t3, t4, t5] =
      some (⟨5, t1, t5, some (t5 + 7200000)⟩, t5 + 10800 * 1000) := by
    simp only [recordFailures, List.foldl_cons, List.foldl_nil, e1, e2, e3, e4, e5]
  have hcheck : checkRateLimit (recordFailures none [t1, t2, t3, t4, t5]) tc =
      ⟨false, some reasonBanned, some ((t5 + 7200000 - tc + 999) / 1000),
        some (t5 + 7200000)⟩ := by
    rw [hseq, checkRateLimit, kvGet, if_pos (show tc < t5 + 10800 * 1000 by omega)]
    simp only []
    rw [if_pos (by constructor <;> omega)]
  refine ⟨hseq, hcheck, by rw [hcheck], ?_⟩
  rw [recordSuccess, checkRateLimit]
  rfl

theorem rateLimiter_ban_flow_witness :
    recordFailures none [10, 20, 30, 40, 50] =
      some (⟨5, 10, 50, some (50 + 7200000)⟩, 50 + 10800 * 1000) ∧
    checkRateLimit (recordFailures none [10, 20, 30, 40, 50]) 1000 =
      ⟨false, some reasonBanned, some ((50 + 7200000 - 1000 + 999) / 1000),
        some (50 + 7200000)⟩ ∧
    (checkRateLimit (recordFailures none [10, 20, 30, 40, 50]) 1000).allowed = false ∧
    checkRateLimit (recordSuccess (recordFailures none [10, 20, 30, 40, 50])) 9999999999 =
      ⟨true, none, none, none⟩ :=
  rateLimiter_ban_flow 10 20 30 40 50 1000 9999999999
    (by decide) (by decide) (by decide) (by decide) (by decide)
    (by decide) (by decide) (by decide) (by decide)
    (by decide) (by decide)

theorem recordFailureState_last (prev : Option RateLimitState) (now : Int) :
    (recordFailureState prev now).lastFailureAt = now := by
  cases prev with
  | none => rfl
  | some st0 =>
    simp only [recordFailureState]
    split
    · rfl
    · split <;> rfl

/-- **C7.** A `checkRateLimit` strictly less than 5 seconds after the most
recent `recordFailure` — whose written state is not in a ban period at check
time — is rejected with `TOO_FREQUENT` and a positive `waitSeconds`, however
few failures have accumulated. (`0 < t` reflects a positive `Date.now()`
clock; a literally zero `lastFailureAt` would be JS-falsy.) -/
theorem rateLimiter_cooldown (kv : Option KVEntry) (t now : Int)
    (ht : 0 < t) (hle : t ≤ now) (hlt : now - t < 5000)
    (hban : ∀ bu, (recordFailureState (kvGet kv t) t).banUntil = some bu →
      ¬(bu ≠ 0 ∧ now < bu)) :
    ∃ w, checkRateLimit (recordFailure kv t) now =
      ⟨false, some reasonTooFrequent, some w, none⟩ ∧ 0 < w := by
  have hlast := recordFailureState_last (kvGet kv t) t
  have hcool : cooldownCheck (recordFailureState (kvGet kv t) t) now =
      ⟨false, some reasonTooFrequent,
        some ((5000 - (now - t) + 999) / 1000), none⟩ := by
    rw [cooldownCheck, if_pos]
    · rw [hlast]
    · rw [hlast]
      exact ⟨by omega, by omega⟩
  refine ⟨(5000 - (now - t) + 999) / 1000, ?_, by omega⟩
  rw [recordFailure, checkRateLimit, kvGet,
    if_pos (show now < t + 10800 * 1000 by omega)]
  simp only []
  rcases hbu : (recordFailureState (kvGet kv t) t).banUntil with _ | bu
  · exact hcool
  · simp only []
    rw [if_neg (hban bu hbu)]
    exact hcool

theorem rateLimiter_cooldown_witness :
    ∃ w, checkRateLimit (recordFailure none 100) 3000 =
      ⟨false, some reasonTooFrequent, some w, none⟩ ∧ 0 < w :=
  rateLimiter_cooldown none 100 3000 (by decide) (by decide) (by decide)
    (by intro bu hbu; simp [recordFailureState, kvGet] at hbu)

/-! ## index.ts: authMiddleware (session validation and legacy-token branch) -/

/-- Decimal digits, fuel-based for structural recursion (big-endian). -/
def natDecF : Nat → Nat → Str
  | _, 0 => []
  | 0, _ + 1 => []
  | f + 1, n + 1 => natDecF f ((n + 1) / 10) ++ [hexDigit ((n + 1) % 10)]

/-- JS number-to-string for a nonnegative integer. -/
def natDec (n : Nat) : Str := if n = 0 then ['0'] else natDecF n n

/-- JS number-to-string for an integer. -/
def intDec (i : Int) : Str := if i < 0 then '-' :: natDec i.natAbs else natDec i.natAbs

/-- The template literal `legacy-${payload.user_id}-${payload.exp}` (an
absent `exp` stringifies as `undefined`). -/
def legacyId (uid : Str) (exp : Option Int) : Str :=
  ("legacy-").toList ++ uid ++ '-' ::
    (match exp with
     | some e => intDec e
     | none => ("undefined").toList)

/-- The request-derived cosmetic fields of a materialized legacy session
(device name with date string, parsed User-Agent, CF headers). -/
structure RequestMeta where
  device_name : Option Str
  device_type : Option Str
  browser_name : Option Str
  os_name : Option Str
  ip_address : Option Str
  location : Option Str
  user_agent : Str
  deriving DecidableEq, Repr

/-- The session row the legacy branch inserts: active, `created_at = now`,
`expires_at = payload.exp * 1000`, no refresh token. (A payload with no
`exp` would store `NaN`; modelled as 0 — the branch is only reachable with
a signed token carrying `exp` under this file's theorems.) -/
def legacySession (lid : Str) (uid : Str) (exp : Option Int) (meta : RequestMeta)
    (nowMs : Int) : Session :=
  { id := lid, user_id := uid, device_id := ("legacy-device").toList,
    device_name := meta.device_name, device_type := meta.device_type,
    browser_name := meta.browser_name, os_name := meta.os_name,
    ip_address := meta.ip_address, location := meta.location,
    user_agent := meta.user_agent, is_active := true, created_at := nowMs,
    expires_at := (match exp with | some e => e * 1000 | none => 0),
    refresh_token := none }

inductive AuthResult where
  | granted (userId : Str) (sessionId : Str) : AuthResult
  | unauthorized : AuthResult
  | sessionInvalid : AuthResult
  deriving DecidableEq, Repr

/-- `authMiddleware` from index.ts, from the extracted bearer token onward:
verify the JWT (at `Math.floor(Date.now()/1000)`); a payload without `jti`
enters the legacy branch, which derives the synthetic session id, lazily
inserts an active session row for it if absent — without consulting
`findActive` or any device limit — and grants access; a payload with `jti`
requires the bound session to exist, be active and be unexpired. -/
def authMiddleware (hmac : Str → Str → Str) (store : SessionStore)
    (token secret : Str) (nowMs : Int) (meta : RequestMeta) :
    AuthResult × SessionStore :=
  match verifyJWT hmac token secret (nowMs / 1000) with
  | .error _ => (.unauthorized, store)
  | .ok payload =>
    match payload.jti with
    | none =>
      match findById store (legacyId payload.user_id payload.exp) with
      | some _ => (.granted payload.user_id (legacyId payload.user_id payload.exp), store)
      | none =>
        (.granted payload.user_id (legacyId payload.user_id payload.exp),
         createSession store
           (legacySession (legacyId payload.user_id payload.exp) payload.user_id
             payload.exp meta nowMs))
    | some sid =>
      match findById store sid with
      | none => (.sessionInvalid, store)
      | some session =>
        if session.is_active ≠ true ∨ session.expires_at < nowMs then
          (.sessionInvalid, store)
        else (.granted payload.user_id sid, store)

theorem countActive_append (store : SessionStore) (s : Session) (uid : Str) (now : Int) :
    countActive (store ++ [s]) uid now =
      countActive store uid now + (if sessionLive uid now s then 1 else 0) := by
  simp only [countActive, liveRows, List.filter_append]
  split <;> next h => simp [List.filter, h]

/-- **C9.** The legacy-token branch bypasses the device limit: starting from
a state where a user already has 3 active unexpired sessions, presenting a
validly signed token for that user with no `jti` claim (and an `exp` whose
derived session id and expiry are fresh and unexpired) materializes a new
active session, so the user ends with 4 active sessions — the middleware
never consults the max-3 device limit that the login handler enforces. -/
theorem authMiddleware_legacy_breaks_device_limit (hmac : Str → Str → Str)
    (store : SessionStore) (token secret uid : Str) (nowMs : Int)
    (meta : RequestMeta) (pl : Payload) (e : Int)
    (hver : verifyJWT hmac token secret (nowMs / 1000) = .ok pl)
    (hjti : pl.jti = none) (huid : pl.user_id = uid) (hexp : pl.exp = some e)
    (hcount : countActive store uid nowMs = 3)
    (hfresh : ∀ t ∈ store, t.id ≠ legacyId uid (some e))
    (hunexp : nowMs < e * 1000) :
    (authMiddleware hmac store token secret nowMs meta).1 =
      .granted uid (legacyId uid (some e)) ∧
    (authMiddleware hmac store token secret nowMs meta).2 =
      store ++ [legacySession (legacyId uid (some e)) uid (some e) meta nowMs] ∧
    countActive (authMiddleware hmac store token secret nowMs meta).2 uid nowMs = 4 := by
  have hfind : findById store (legacyId uid (some e)) = none := by
    rw [findById, List.find?_eq_none]
    intro t ht
    simp only [decide_eq_true_eq]
    exact hfresh t ht
  have hmw : authMiddleware hmac store token secret nowMs meta =
      (.granted uid (legacyId uid (some e)),
       store ++ [legacySession (legacyId uid (some e)) uid (some e) meta nowMs]) := by
    rw [authMiddleware, hver]
    simp only []
    rw [hjti]
    simp only []
    rw [huid, hexp, hfind]
    rfl
  have hliveNew : sessionLive uid nowMs
      (legacySession (legacyId uid (some e)) uid (some e) meta nowMs) = true := by
    simp [sessionLive, legacySession]
    omega
  refine ⟨by rw [hmw], by rw [hmw], ?_⟩
  rw [hmw]
  simp only []
  rw [countActive_append, hcount, if_pos hliveNew]

def demoMeta : RequestMeta := ⟨none, none, none, none, none, none, []⟩

/-- Three active sessions of user `u`, all unexpired at time 1000000. -/
def demoStore3 : SessionStore :=
  [demoSession ['s', '1'] ['u'] 10 9999999 true,
   demoSession ['s', '2'] ['u'] 20 9999999 true,
   demoSession ['s', '3'] ['u'] 30 9999999 true]

/-- A legacy access token for user `u`: signed claims without `jti`,
issued at second 1000 (so `exp = 1900`). -/
def demoLegacyTok : Str :=
  jwtMessage ⟨['u'], ['e'], none⟩ 1000 900 ++ '.' ::
    b64e (demoHmac (jwtMessage ⟨['u'], ['e'], none⟩ 1000 900) ['k'])

theorem authMiddleware_legacy_witness :
    (authMiddleware demoHmac demoStore3 demoLegacyTok ['k'] 1000000 demoMeta).1 =
      .granted ['u'] (legacyId ['u'] (some 1900)) ∧
    (authMiddleware demoHmac demoStore3 demoLegacyTok ['k'] 1000000 demoMeta).2 =
      demoStore3 ++ [legacySession (legacyId ['u'] (some 1900)) ['u'] (some 1900)
        demoMeta 1000000] ∧
    countActive (authMiddleware demoHmac demoStore3 demoLegacyTok ['k']
      1000000 demoMeta).2 ['u'] 1000000 = 4 :=
  authMiddleware_legacy_breaks_device_limit demoHmac demoStore3 demoLegacyTok
    ['k'] ['u'] 1000000 demoMeta (mkJwtPayload ⟨['u'], ['e'], none⟩ 1000 900) 1900
    (verify_sign_roundtrip demoHmac ⟨['u'], ['e'], none⟩ ['k'] 1000 900)
    rfl rfl rfl
    (by decide) (by decide) (by decide)

/-! ## index.ts: POST /api/auth/login — device-limit enforcement under
concurrency

The handler's storage operations after a successful credential check are
(1) `findActive` and the `length >= maxDevices` comparison, (2) if over the
limit, the atomic `revokeOldestSession`, (3) `create` of the new session.
Each inbound request is an independent request context; cross-request state
is only the session store. The model gives each login a program counter and
lets a schedule (a list of login indices) interleave the three storage steps
arbitrarily; a logical clock stamps `Date.now()` for each step. Evictions
are logged as `(login index, revoked session id)` pairs. -/

def maxDevices : Nat := 3

def idOf (i : Nat) : Str := 'i' :: natBits i
def rtOf (i : Nat) : Str := 'r' :: natBits i

/-- The session the login handler inserts: fresh id (modelling
`crypto.randomUUID()`), fresh refresh token, `expires_at = now + 7 days`. -/
def newLoginSession (uid : Str) (i : Nat) (clock : Int) : Session :=
  { id := idOf i, user_id := uid, device_id := 'd' :: natBits i,
    device_name := none, device_type := none, browser_name := none,
    os_name := none, ip_address := none, location := none, user_agent := [],
    is_active := true, created_at := clock, expires_at := clock + 604800000,
    refresh_token := some (rtOf i) }

structure LoginLocal where
  phase : Nat
  decision : Bool
  deriving DecidableEq, Repr

structure SysState where
  store : SessionStore
  locals : List LoginLocal
  revLog : List (Nat × Str)
  clock : Int
  deriving DecidableEq, Repr

/-- One storage step of login `i`: phase 0 reads the active count and
records the over-limit decision, phase 1 performs the (atomic) eviction when
over limit, phase 2 inserts the new session. -/
def stepLogin (uid : Str) (sys : SysState) (i : Nat) : SysState :=
  match sys.locals.get? i with
  | none => sys
  | some l =>
    match l.phase with
    | 0 =>
      { sys with
        locals := sys.locals.set i
          ⟨1, decide ((findActive sys.store uid sys.clock).length ≥ maxDevices)⟩,
        clock := sys.clock + 1 }
    | 1 =>
      if l.decision then
        { store := (revokeOldestSession sys.store uid sys.clock).2,
          locals := sys.locals.set i ⟨2, l.decision⟩,
          revLog := sys.revLog ++
            (match (revokeOldestSession sys.store uid sys.clock).1 with
             | some s => [(i, s.id)]
             | none => []),
          clock := sys.clock + 1 }
      else
        { sys with locals := sys.locals.set i ⟨2, l.decision⟩, clock := sys.clock + 1 }
    | 2 =>
      { store := createSession sys.store (newLoginSession uid i sys.clock),
        locals := sys.locals.set i ⟨3, l.decision⟩,
        revLog := sys.revLog,
        clock := sys.clock + 1 }
    | _ => sys

def runSched (uid : Str) (sys : SysState) (sched : List Nat) : SysState :=
  sched.foldl (stepLogin uid) sys

def initSys (n : Nat) : SysState := ⟨[], List.replicate n ⟨0, false⟩, [], 0⟩

/-- All `n` logins have finished their three steps. -/
def completed (sys : SysState) : Bool := sys.locals.all (fun l => l.phase = 3)

/-- The all-checks-first interleaving of 4 logins. -/
def schedAllChecksFirst : List Nat := [0, 1, 2, 3, 0, 1, 2, 3, 0, 1, 2, 3]

/-- **C2 counterexample.** Four concurrent logins for one user under the
interleaving that runs all four `findActive` checks before any insertion:
every login observes 0 active sessions, nobody evicts, and after all four
complete the user has 4 active sessions and 0 revocations — falsifying
"under any interleaving … findActive has length exactly 3 and exactly N−3
distinct sessions were revoked" at N = 4. -/
theorem c2_interleaving_counterexample :
    completed (runSched ['u'] (initSys 4) schedAllChecksFirst) = true ∧
    (findActive (runSched ['u'] (initSys 4) schedAllChecksFirst).store ['u']
      (runSched ['u'] (initSys 4) schedAllChecksFirst).clock).length = 4 ∧
    (runSched ['u'] (initSys 4) schedAllChecksFirst).revLog = [] ∧
    ¬ ((findActive (runSched ['u'] (initSys 4) schedAllChecksFirst).store ['u']
        (runSched ['u'] (initSys 4) schedAllChecksFirst).clock).length = 3 ∧
      (runSched ['u'] (initSys 4) schedAllChecksFirst).revLog.length = 4 - 3) := by
  decide

/-- Number of evictions attributed to login `i`. -/
def evictCount (sys : SysState) (i : Nat) : Nat :=
  sys.revLog.countP (fun p => p.1 = i)

/-- The eviction-bound invariant: every login has evicted at most once, and
a login that has not yet passed its eviction step has evicted nothing. -/
def EvictInv (sys : SysState) : Prop :=
  ∀ i, evictCount sys i ≤ 1 ∧
    (∀ l, sys.locals.get? i = some l → l.phase ≤ 1 → evictCount sys i = 0)

theorem stepLogin_evictInv (uid : Str) (sys : SysState) (j : Nat)
    (h : EvictInv sys) : EvictInv (stepLogin uid sys j) := by
  rcases hj : sys.locals.get? j with _ | l
  · rw [stepLogin, hj]; exact h
  obtain ⟨ph, dec⟩ := l
  have hjlen : j < sys.locals.length := by
    by_contra hge
    rw [List.get?_eq_none.mpr (by omega)] at hj
    exact Option.noConfusion hj
  have hget : ∀ (x : LoginLocal) (i : Nat),
      (sys.locals.set j x).get? i = if i = j then some x else sys.locals.get? i := by
    intro x i
    by_cases hij : i = j
    · subst hij
      rw [if_pos rfl]
      simp only [List.get?_eq_getElem?]
      rw [List.getElem?_set_self (by omega)]
    · rw [if_neg hij]
      simp only [List.get?_eq_getElem?]
      exact List.getElem?_set_ne (fun he => hij he.symm)
  rw [stepLogin, hj]
  simp only []
  rcases ph with _ | _ | _ | ph3
  · intro i
    refine ⟨(h i).1, ?_⟩
    intro l2 hl2
    try simp only [] at hl2
    rw [hget] at hl2
    by_cases hij : i = j
    · rw [if_pos hij] at hl2
      intro _
      exact (h i).2 ⟨0, dec⟩ (hij ▸ hj) (by simp)
    · rw [if_neg hij] at hl2
      exact (h i).2 l2 hl2
  · by_cases hd : dec = true
    · rw [if_pos (by simpa using hd)]
      have hcj : evictCount sys j = 0 := (h j).2 ⟨1, dec⟩ hj (by simp)
      intro i
      rcases hrv : (revokeOldestSession sys.store uid sys.clock).1 with _ | s <;>
        simp only [evictCount, List.countP_append, List.countP_nil, List.countP_cons,
          Nat.add_zero] <;>
        constructor
      · exact (h i).1
      · intro l2 hl2
        try simp only [] at hl2
        rw [hget] at hl2
        by_cases hij : i = j
        · rw [if_pos hij] at hl2
          intro hph
          exact absurd hph (by cases hl2; simp)
        · rw [if_neg hij] at hl2
          intro hph
          exact (h i).2 l2 hl2 hph
      · by_cases hij : i = j
        · subst hij
          have hz : evictCount sys i = 0 := hcj
          rw [evictCount] at hz
          rw [hz]
          split <;> omega
        · have hdec : (decide (j = i)) = false := by
            simp only [decide_eq_false_iff_not]
            exact fun he => hij he.symm
          rw [hdec]
          have h1 := (h i).1
          rw [evictCount] at h1
          simpa using h1
      · intro l2 hl2
        try simp only [] at hl2
        rw [hget] at hl2
        by_cases hij : i = j
        · rw [if_pos hij] at hl2
          intro hph
          exact absurd hph (by cases hl2; simp)
        · rw [if_neg hij] at hl2
          intro hph
          have hold := (h i).2 l2 hl2 hph
          rw [evictCount] at hold
          have hdec : (decide (j = i)) = false := by
            simp only [decide_eq_false_iff_not]
            exact fun he => hij he.symm
          rw [hdec]
          simpa using hold
    · rw [if_neg (by simpa using hd)]
      intro i
      refine ⟨(h i).1, ?_⟩
      intro l2 hl2
      try simp only [] at hl2
      rw [hget] at hl2
      by_cases hij : i = j
      · rw [if_pos hij] at hl2
        intro hph
        exact absurd hph (by cases hl2; simp)
      · rw [if_neg hij] at hl2
        exact (h i).2 l2 hl2
  · intro i
    refine ⟨(h i).1, ?_⟩
    intro l2 hl2
    try simp only [] at hl2
    rw [hget] at hl2
    by_cases hij : i = j
    · rw [if_pos hij] at hl2
      intro hph
      exact absurd hph (by cases hl2; simp)
    · rw [if_neg hij] at hl2
      exact (h i).2 l2 hl2
  · exact h

theorem runSched_evictInv (uid : Str) (sched : List Nat) :
    ∀ sys : SysState, EvictInv sys → EvictInv (runSched uid sys sched) := by
  induction sched with
  | nil => intro sys h; exact h
  | cons j rest ih =>
    intro sys h
    exact ih (stepLogin uid sys j) (stepLogin_evictInv uid sys j h)

theorem initSys_evictInv (n : Nat) : EvictInv (initSys n) := by
  intro i
  constructor
  · simp [evictCount, initSys]
  · intro l _ _
    simp [evictCount, initSys]

/-! ### Sequential execution of N logins: closed forms -/

/-- The session of login `m` after `n` sequential logins: created at clock
`3m + 2`, still active iff it is among the last three creations. -/
def seqSess (uid : Str) (n m : Nat) : Session :=
  { newLoginSession uid m (3 * (m : Int) + 2) with is_active := decide (n ≤ m + 3) }

def seqStore (uid : Str) (n : Nat) : SessionStore := (List.range n).map (seqSess uid n)

def seqLog (n : Nat) : List (Nat × Str) :=
  (List.range (n - 3)).map (fun m => (m + 3, idOf m))

def localsAfter (N n : Nat) : List LoginLocal :=
  (List.range N).map (fun i => if i < n then ⟨3, decide (3 ≤ i)⟩ else ⟨0, false⟩)

/-- The fully sequential schedule: each login runs its three steps to
completion before the next login starts. -/
def seqSched (n : Nat) : List Nat := (List.range n).flatMap (fun i => [i, i, i])

theorem natBits_inj {a b : Nat} (h : natBits a = natBits b) : a = b := by
  have := congrArg bitsToNat h
  rwa [bitsToNat_natBits, bitsToNat_natBits] at this

theorem idOf_inj {a b : Nat} (h : idOf a = idOf b) : a = b := by
  rw [idOf, idOf] at h
  exact natBits_inj (by simpa using h)

theorem filter_range_ge (k : Nat) : ∀ n,
    (List.range n).filter (fun m => decide (k ≤ m)) = List.range' k (n - k) := by
  intro n
  induction n with
  | zero => simp
  | succ n ih =>
    rw [List.range_succ, List.filter_append, ih]
    by_cases hk : k ≤ n
    · rw [show (n + 1) - k = (n - k) + 1 by omega, List.range'_concat,
        show k + 1 * (n - k) = n by omega]
      simp [hk]
    · rw [show (n + 1) - k = 0 by omega, show n - k = 0 by omega]
      simp
      omega

theorem liveRows_seqStore (uid : Str) (n : Nat) (t : Int)
    (ht : ∀ m : Nat, m < n → n ≤ m + 3 → t < 3 * (m : Int) + 2 + 604800000) :
    liveRows (seqStore uid n) uid t =
      (List.range' (n - 3) (n - (n - 3))).map (seqSess uid n) := by
  rw [seqStore, liveRows, List.filter_map, ← filter_range_ge (n - 3) n]
  congr 1
  apply List.filter_congr
  intro m hm
  have hmn : m < n := List.mem_range.mp hm
  show sessionLive uid t (seqSess uid n m) = decide (n - 3 ≤ m)
  rw [sessionLive]
  have hu : (seqSess uid n m).user_id = uid := rfl
  have hact : (seqSess uid n m).is_active = decide (n ≤ m + 3) := rfl
  have hexp : (seqSess uid n m).expires_at = 3 * (m : Int) + 2 + 604800000 := rfl
  rw [hu, hact, hexp, decide_eq_decide]
  by_cases ha : n ≤ m + 3
  · have hht := ht m hmn ha
    constructor
    · intro _; omega
    · intro _
      exact ⟨rfl, by simp [ha], by omega⟩
  · constructor
    · rintro ⟨_, h2, _⟩
      have h3 := of_decide_eq_true h2
      omega
    · intro hge
      exact absurd hge (by omega)

theorem oldest_seqStore (uid : Str) (n : Nat) (hn : 3 ≤ n) (t : Int)
    (ht : ∀ m : Nat, m < n → n ≤ m + 3 → t < 3 * (m : Int) + 2 + 604800000) :
    oldestOf (liveRows (seqStore uid n) uid t) = some (seqSess uid n (n - 3)) := by
  rw [liveRows_seqStore uid n t ht, show n - (n - 3) = 3 by omega]
  have hlist : List.range' (n - 3) 3 = [n - 3, n - 3 + 1, n - 3 + 2] := rfl
  rw [hlist]
  rcases hold : oldestOf ([n - 3, n - 3 + 1, n - 3 + 2].map (seqSess uid n)) with _ | s
  · rw [oldestOf_eq_none] at hold
    simp at hold
  · have hmem := oldestOf_mem hold
    have hmin := oldestOf_min hold
    have hc : ∀ m : Nat, (seqSess uid n m).created_at = 3 * (m : Int) + 2 := fun _ => rfl
    have hfirst : (seqSess uid n (n - 3)) ∈
        [n - 3, n - 3 + 1, n - 3 + 2].map (seqSess uid n) := by simp
    have hle := hmin _ hfirst
    simp only [List.mem_map, List.mem_cons, List.not_mem_nil, or_false] at hmem
    rcases hmem with ⟨m, hm, rfl⟩
    rcases hm with rfl | rfl | rfl
    · rfl
    · rw [hc, hc] at hle
      exfalso
      omega
    · rw [hc, hc] at hle
      exfalso
      omega

theorem revoke_seqStore (uid : Str) (n : Nat) (hn : 3 ≤ n) (t : Int)
    (ht : ∀ m : Nat, m < n → n ≤ m + 3 → t < 3 * (m : Int) + 2 + 604800000) :
    revokeOldestSession (seqStore uid n) uid t =
      (some { seqSess uid n (n - 3) with is_active := false },
       (List.range n).map (seqSess uid (n + 1))) := by
  rw [revokeOldestSession, oldest_seqStore uid n hn t ht]
  simp only []
  congr 1
  have hid : (seqSess uid n (n - 3)).id = idOf (n - 3) := rfl
  rw [hid, seqStore, revokeById, List.map_map]
  apply List.map_congr_left
  intro m hm
  have hmn : m < n := List.mem_range.mp hm
  simp only [Function.comp_apply]
  have hidm : (seqSess uid n m).id = idOf m := rfl
  by_cases hm3 : m = n - 3
  · subst hm3
    rw [if_pos hidm]
    show ({ seqSess uid n (n - 3) with is_active := false } : Session) =
      seqSess uid (n + 1) (n - 3)
    rw [seqSess, seqSess]
    have : decide ((n + 1 : Nat) ≤ (n - 3) + 3) = false := by
      simp only [decide_eq_false_iff_not]
      omega
    rw [this]
  · rw [if_neg]
    · show seqSess uid n m = seqSess uid (n + 1) m
      rw [seqSess, seqSess]
      have : decide ((n : Nat) ≤ m + 3) = decide ((n + 1 : Nat) ≤ m + 3) := by
        rw [decide_eq_decide]
        omega
      rw [this]
    · rw [hidm]
      exact fun he => hm3 (idOf_inj he)

theorem seqStore_small (uid : Str) (n : Nat) (hn : n < 3) :
    seqStore uid n = (List.range n).map (seqSess uid (n + 1)) := by
  rw [seqStore]
  apply List.map_congr_left
  intro m hm
  have hmn : m < n := List.mem_range.mp hm
  rw [seqSess, seqSess]
  have : decide ((n : Nat) ≤ m + 3) = decide ((n + 1 : Nat) ≤ m + 3) := by
    rw [decide_eq_decide]
    omega
  rw [this]

theorem create_seqStore (uid : Str) (n : Nat) :
    (List.range n).map (seqSess uid (n + 1)) ++
      [newLoginSession uid n (3 * (n : Int) + 2)] = seqStore uid (n + 1) := by
  rw [seqStore, List.range_succ, List.map_append, List.map_singleton]
  congr 1
  rw [seqSess]
  have : decide ((n + 1 : Nat) ≤ n + 3) = true := by
    simp only [decide_eq_true_eq]
    omega
  rw [this]
  rfl

theorem seqLog_succ (n : Nat) (hn : 3 ≤ n) :
    seqLog n ++ [(n, idOf (n - 3))] = seqLog (n + 1) := by
  rw [seqLog, seqLog, show (n + 1) - 3 = (n - 3) + 1 by omega, List.range_succ,
    List.map_append, List.map_singleton, show (n - 3) + 3 = n by omega]

theorem seqLog_small (n : Nat) (hn : n < 3) : seqLog n = seqLog (n + 1) := by
  rw [seqLog, seqLog, show n - 3 = 0 by omega, show (n + 1) - 3 = 0 by omega]

theorem localsAfter_length (N n : Nat) : (localsAfter N n).length = N := by
  simp [localsAfter]

theorem localsAfter_get (N n i : Nat) (hi : i < N) :
    (localsAfter N n).get? i =
      some (if i < n then ⟨3, decide (3 ≤ i)⟩ else ⟨0, false⟩) := by
  rw [localsAfter]
  simp only [List.get?_eq_getElem?, List.getElem?_map]
  rw [List.getElem?_range hi]
  rfl

theorem localsAfter_set_final (N n : Nat) (hn : n < N) :
    (localsAfter N n).set n ⟨3, decide (3 ≤ n)⟩ = localsAfter N (n + 1) := by
  apply List.ext_getElem
  · simp [localsAfter]
  · intro i hi1 hi2
    simp only [localsAfter, List.getElem_set, List.getElem_map, List.getElem_range]
    by_cases hin : n = i
    · subst hin
      rw [if_pos rfl, if_pos (by omega)]
    · rw [if_neg hin]
      by_cases hi2n : i < n
      · rw [if_pos hi2n, if_pos (by omega)]
      · rw [if_neg hi2n, if_neg (by omega)]

theorem seq_decision (uid : Str) (n : Nat) :
    decide ((findActive (seqStore uid n) uid (3 * (n : Int))).length ≥ maxDevices) =
      decide (3 ≤ n) := by
  have hlen : (findActive (seqStore uid n) uid (3 * (n : Int))).length = n - (n - 3) := by
    rw [findActive, (List.perm_insertionSort _ _).length_eq,
      liveRows_seqStore uid n _ (by intro m hm1 hm2; push_cast; omega)]
    simp [List.length_map, List.length_range']
  rw [hlen, decide_eq_decide, maxDevices]
  omega

theorem seq_step0 (uid : Str) (N n : Nat) (hn : n < N) :
    stepLogin uid ⟨seqStore uid n, localsAfter N n, seqLog n, 3 * (n : Int)⟩ n =
      ⟨seqStore uid n, (localsAfter N n).set n ⟨1, decide (3 ≤ n)⟩, seqLog n,
        3 * (n : Int) + 1⟩ := by
  rw [stepLogin]
  have hg : (localsAfter N n).get? n = some ⟨0, false⟩ := by
    rw [localsAfter_get N n n hn, if_neg (by omega)]
  rw [show (⟨seqStore uid n, localsAfter N n, seqLog n, 3 * (n : Int)⟩ :
      SysState).locals.get? n = some ⟨0, false⟩ from hg]
  simp only []
  rw [seq_decision uid n]

theorem seq_step1 (uid : Str) (N n : Nat) (hn : n < N) :
    stepLogin uid ⟨seqStore uid n, (localsAfter N n).set n ⟨1, decide (3 ≤ n)⟩,
        seqLog n, 3 * (n : Int) + 1⟩ n =
      ⟨(List.range n).map (seqSess uid (n + 1)),
       ((localsAfter N n).set n ⟨1, decide (3 ≤ n)⟩).set n ⟨2, decide (3 ≤ n)⟩,
       seqLog (n + 1), 3 * (n : Int) + 2⟩ := by
  rw [stepLogin]
  have hb1 : n < (localsAfter N n).length := by
    rw [localsAfter_length]
    exact hn
  have hg : ((localsAfter N n).set n ⟨1, decide (3 ≤ n)⟩).get? n =
      some ⟨1, decide (3 ≤ n)⟩ := by
    simp only [List.get?_eq_getElem?]
    rw [List.getElem?_set_self hb1]
  rw [show (⟨seqStore uid n, (localsAfter N n).set n ⟨1, decide (3 ≤ n)⟩, seqLog n,
      3 * (n : Int) + 1⟩ : SysState).locals.get? n = some ⟨1, decide (3 ≤ n)⟩ from hg]
  simp only []
  by_cases h3 : 3 ≤ n
  · rw [if_pos (show decide (3 ≤ n) = true by simp [h3])]
    rw [revoke_seqStore uid n h3 (3 * (n : Int) + 1)
      (by intro m hm1 hm2; push_cast; omega)]
    simp only []
    rw [show ({ seqSess uid n (n - 3) with is_active := false } : Session).id =
      idOf (n - 3) from rfl]
    rw [seqLog_succ n h3]
    rw [show (3 * (n : Int) + 1) + 1 = 3 * (n : Int) + 2 by ring]
  · rw [if_neg (show ¬ decide (3 ≤ n) = true by simp [h3])]
    rw [show (3 * (n : Int) + 1) + 1 = 3 * (n : Int) + 2 by ring]
    rw [show seqStore uid n = (List.range n).map (seqSess uid (n + 1)) from
      seqStore_small uid n (by omega)]
    rw [show seqLog n = seqLog (n + 1) from seqLog_small n (by omega)]

theorem seq_step2 (uid : Str) (N n : Nat) (hn : n < N) :
    stepLogin uid ⟨(List.range n).map (seqSess uid (n + 1)),
        ((localsAfter N n).set n ⟨1, decide (3 ≤ n)⟩).set n ⟨2, decide (3 ≤ n)⟩,
        seqLog (n + 1), 3 * (n : Int) + 2⟩ n =
      ⟨seqStore uid (n + 1),
       (((localsAfter N n).set n ⟨1, decide (3 ≤ n)⟩).set n
         ⟨2, decide (3 ≤ n)⟩).set n ⟨3, decide (3 ≤ n)⟩,
       seqLog (n + 1), 3 * (n : Int) + 3⟩ := by
  rw [stepLogin]
  have hb2 : n < (((localsAfter N n).set n ⟨1, decide (3 ≤ n)⟩).length) := by
    rw [List.length_set, localsAfter_length]
    exact hn
  have hg : (((localsAfter N n).set n ⟨1, decide (3 ≤ n)⟩).set n
      ⟨2, decide (3 ≤ n)⟩).get? n = some ⟨2, decide (3 ≤ n)⟩ := by
    simp only [List.get?_eq_getElem?]
    rw [List.getElem?_set_self hb2]
  rw [show (⟨(List.range n).map (seqSess uid (n + 1)),
      ((localsAfter N n).set n ⟨1, decide (3 ≤ n)⟩).set n ⟨2, decide (3 ≤ n)⟩,
      seqLog (n + 1), 3 * (n : Int) + 2⟩ : SysState).locals.get? n =
      some ⟨2, decide (3 ≤ n)⟩ from hg]
  simp only []
  rw [show createSession ((List.range n).map (seqSess uid (n + 1)))
      (newLoginSession uid n (3 * (n : Int) + 2)) = seqStore uid (n + 1) from
    create_seqStore uid n]
  rw [show (3 * (n : Int) + 2) + 1 = 3 * (n : Int) + 3 by ring]

theorem runSched_append (uid : Str) (sys : SysState) (a b : List Nat) :
    runSched uid sys (a ++ b) = runSched uid (runSched uid sys a) b := by
  rw [runSched, runSched, runSched, List.foldl_append]

theorem localsAfter_zero (N : Nat) : localsAfter N 0 = List.replicate N ⟨0, false⟩ := by
  apply List.ext_getElem
  · simp [localsAfter]
  · intro i hi1 hi2
    simp [localsAfter]

theorem seqSched_succ (n : Nat) : seqSched (n + 1) = seqSched n ++ [n, n, n] := by
  rw [seqSched, seqSched, List.range_succ, List.flatMap_append]
  simp

/-- After `n` fully sequential logins the system state is the closed form:
`seqStore` for the sessions, `localsAfter` for the login phases, `seqLog` for
the eviction log and clock `3n`. -/
theorem seq_invariant (uid : Str) (N : Nat) :
    ∀ n, n ≤ N → runSched uid (initSys N) (seqSched n) =
      ⟨seqStore uid n, localsAfter N n, seqLog n, 3 * (n : Int)⟩ := by
  intro n
  induction n with
  | zero =>
    intro _
    rw [show seqSched 0 = [] from rfl, runSched]
    simp only [List.foldl_nil]
    rw [initSys, localsAfter_zero]
    have h1 : seqStore uid 0 = [] := rfl
    have h2 : seqLog 0 = [] := rfl
    rw [h1, h2]
    simp
  | succ n ih =>
    intro hle
    have hn : n < N := by omega
    rw [seqSched_succ, runSched_append, ih (by omega)]
    rw [show runSched uid ⟨seqStore uid n, localsAfter N n, seqLog n,
        3 * (n : Int)⟩ [n, n, n] =
      stepLogin uid (stepLogin uid (stepLogin uid
        ⟨seqStore uid n, localsAfter N n, seqLog n, 3 * (n : Int)⟩ n) n) n from rfl]
    rw [seq_step0 uid N n hn, seq_step1 uid N n hn, seq_step2 uid N n hn]
    rw [List.set_set, List.set_set, localsAfter_set_final N n hn]
    rw [show 3 * (n : Int) + 3 = 3 * ((n + 1 : Nat) : Int) by push_cast; ring]

theorem findActive_seqStore_length (uid : Str) (n : Nat) :
    (findActive (seqStore uid n) uid (3 * (n : Int))).length = n - (n - 3) := by
  rw [findActive, (List.perm_insertionSort _ _).length_eq,
    liveRows_seqStore uid n _ (by intro m hm1 hm2; push_cast; omega)]
  simp [List.length_map, List.length_range']

/-- **C2 (amended).** The atomic `revokeOldestSession` bounds eviction to at
most one session per login under every interleaving; but the "exactly 3
active / exactly N−3 distinct revoked" outcome only holds for the sequential
execution (the all-checks-first interleaving falsifies it, see the
counterexample): after N ≥ 4 sequential logins for one user, every login
evicted at most one session, all logins completed, `findActive` has length
exactly 3, and exactly N−3 sessions — pairwise distinct by id — were
revoked. -/
theorem c2_device_limit_spec (uid : Str) (N : Nat) (h4 : 4 ≤ N) :
    (∀ sched : List Nat, ∀ i : Nat,
        evictCount (runSched uid (initSys N) sched) i ≤ 1) ∧
    completed (runSched uid (initSys N) (seqSched N)) = true ∧
    (findActive (runSched uid (initSys N) (seqSched N)).store uid
        (runSched uid (initSys N) (seqSched N)).clock).length = 3 ∧
    (runSched uid (initSys N) (seqSched N)).revLog.length = N - 3 ∧
    ((runSched uid (initSys N) (seqSched N)).revLog.map Prod.snd).Nodup := by
  have hrun := seq_invariant uid N N le_rfl
  refine ⟨?_, ?_, ?_, ?_, ?_⟩
  · intro sched i
    exact (runSched_evictInv uid sched (initSys N) (initSys_evictInv N) i).1
  · rw [hrun, completed]
    simp only [localsAfter]
    rw [List.all_eq_true]
    intro l hl
    simp only [List.mem_map, List.mem_range] at hl
    obtain ⟨i, hi, rfl⟩ := hl
    rw [if_pos hi]
    simp
  · rw [hrun]
    rw [show (⟨seqStore uid N, localsAfter N N, seqLog N, 3 * (N : Int)⟩ :
        SysState).store = seqStore uid N from rfl,
      show (⟨seqStore uid N, localsAfter N N, seqLog N, 3 * (N : Int)⟩ :
        SysState).clock = 3 * (N : Int) from rfl]
    rw [findActive_seqStore_length]
    omega
  · rw [hrun]
    show (seqLog N).length = N - 3
    rw [seqLog]
    simp
  · rw [hrun]
    show ((seqLog N).map Prod.snd).Nodup
    rw [seqLog, List.map_map]
    exact List.Nodup.map (fun a b h => idOf_inj h) (List.nodup_range _)

theorem c2_device_limit_spec_witness :
    4 ≤ 4 ∧
    ((∀ sched : List Nat, ∀ i : Nat,
        evictCount (runSched ['u'] (initSys 4) sched) i ≤ 1) ∧
     completed (runSched ['u'] (initSys 4) (seqSched 4)) = true ∧
     (findActive (runSched ['u'] (initSys 4) (seqSched 4)).store ['u']
        (runSched ['u'] (initSys 4) (seqSched 4)).clock).length = 3 ∧
     (runSched ['u'] (initSys 4) (seqSched 4)).revLog.length = 4 - 3 ∧
     ((runSched ['u'] (initSys 4) (seqSched 4)).revLog.map Prod.snd).Nodup) :=
  ⟨by decide, c2_device_limit_spec ['u'] 4 (by decide)⟩

end AnyNote
